import Mathlib

/-!
Verification development for the design-team workflow orchestration engine
(`src/backend/src/design_team`).  Python values are shallowly embedded:

* numeric confidence / trust scalars (Python floats holding decimal
  constants) are embedded as exact rationals `ℚ`;
* Python dicts keyed by agent index are embedded as association lists
  `List (ℕ × ℚ)` with `dict.get(k, default)` lookup;
* text (Python `str`, a sequence of Unicode code points, which may contain
  lone surrogates) is embedded as `List ℕ` of code points;
* fallible operations return `Option`/`Except`.

All definitions are transcribed from the source; the few reference
definitions written from the specification's words are marked as such.
-/

namespace DesignTeam

/-- Lookup in an agent-trust dict with a default, mirroring Python's
`d.get(k, default)`. -/
def dictGetD (d : List (ℕ × ℚ)) (k : ℕ) (default : ℚ) : ℚ :=
  match d.find? (fun p => p.1 == k) with
  | some p => p.2
  | none => default

/-- A milestone flag: `{"reason": ..., "critical": ...}`
(`session_manager.py`, `nodes.py`). -/
structure Flag where
  reason : String
  critical : Bool
deriving DecidableEq, Repr

/-- Confidence constants from `session_manager.py` / `nodes.py`:
`CONFIDENCE_INIT = 0.5`, `CONFIDENCE_GAIN_APPROVED = 0.10`,
`CONFIDENCE_LOSS_REVISED = 0.20`. -/
def CONFIDENCE_INIT : ℚ := 1/2

def CONFIDENCE_GAIN_APPROVED : ℚ := 1/10

def CONFIDENCE_LOSS_REVISED : ℚ := 1/5

/-- The adaptive self-approve threshold, from `_effective_threshold` in
`graph/edges.py` (and the identical `SessionManager._effective_threshold`):
`manager_trust = agent_trust.get(0, 0.5); return max(0.5, 1.0 - manager_trust)`. -/
def effectiveThreshold (agent_trust : List (ℕ × ℚ)) : ℚ :=
  max (1/2) (1 - dictGetD agent_trust 0 (1/2))

/-- Whether any outstanding flag is critical:
`any(f.get("critical", False) for f in flags)`. -/
def hasCriticalFlag (flags : List Flag) : Bool :=
  flags.any (fun f => f.critical)

/-- The session state consulted by the checkpoint gate. -/
structure GateState where
  milestone_flags : List Flag
  agent_trust : List (ℕ × ℚ)
  confidence : ℚ

/-- Outcome of the checkpoint gate. -/
inductive GateDecision where
  | selfApprove
  | requireDecision
deriving DecidableEq, Repr

/-- The adaptive checkpoint gate, from
`SessionManager._adaptive_checkpoint` (`session_manager.py` lines 226-253):
self-approve iff no critical flag and `confidence >= threshold`, otherwise
fall through to `_human_checkpoint` (an external decision). -/
def adaptiveGate (s : GateState) : GateDecision :=
  if ¬ hasCriticalFlag s.milestone_flags ∧
      effectiveThreshold s.agent_trust ≤ s.confidence then
    .selfApprove
  else
    .requireDecision

/-- The fixed checkpoint gate: `_human_checkpoint` (scope and final
checkpoints, called with `always_require=True`) unconditionally publishes a
confirmation prompt and waits for an external decision. -/
def fixedGate (_ : GateState) : GateDecision := .requireDecision

/-- Conditional edge `should_checkpoint_1` from `graph/edges.py` lines 29-38:
route to `"implementing"` (self-approve) iff no critical flag and the
confidence clears the adaptive threshold, else to `"checkpoint_1"`. -/
def should_checkpoint_1 (s : GateState) : String :=
  if ¬ hasCriticalFlag s.milestone_flags ∧
      effectiveThreshold s.agent_trust ≤ s.confidence then
    "implementing"
  else
    "checkpoint_1"

/-- Conditional edge `should_checkpoint_2` from `graph/edges.py` lines 41-50. -/
def should_checkpoint_2 (s : GateState) : String :=
  if ¬ hasCriticalFlag s.milestone_flags ∧
      effectiveThreshold s.agent_trust ≤ s.confidence then
    "senior_review"
  else
    "checkpoint_2"

/-- Confidence update applied when a checkpoint response is processed, from
`_process_checkpoint_response` (`graph/nodes.py` lines 53-80) and the
identical branches of `SessionManager._human_checkpoint`:
`confirm` gives `min(1.0, c + 0.10)`, any other action gives
`max(0.0, c - 0.20)`. -/
def confidenceUpdate (action : String) (c : ℚ) : ℚ :=
  if action = "confirm" then
    min 1 (c + CONFIDENCE_GAIN_APPROVED)
  else
    max 0 (c - CONFIDENCE_LOSS_REVISED)

/-- Spec name `on_approve(confidence) = min(1.0, confidence + 0.10)`,
realised by the `confirm` branch of the source update. -/
def on_approve (c : ℚ) : ℚ := confidenceUpdate "confirm" c

/-- Spec name `on_revise(confidence) = max(0.0, confidence - 0.20)`,
realised by the `revise` branch of the source update. -/
def on_revise (c : ℚ) : ℚ := confidenceUpdate "revise" c

/-! ### Workflow step model

A small-step embedding of the LangGraph `StateGraph` wired in
`graph/builder.py`.  Each step executes one node's state update
(`graph/nodes.py`) and then follows the (conditional) edge out of that node
(`graph/edges.py`).  Agent payload outputs (`scope_doc`, `senior_output`,
...) are opaque to all routing decisions and are omitted from the state;
the data each node execution receives from its external collaborators
(the human's checkpoint response, the milestone flags its reviews append)
is supplied per step as a `NodeInput`. -/

/-- The nodes of the compiled graph (`builder.py` lines 24-38). -/
inductive Node where
  | scoping | scope_checkpoint | kickoff | kickoff_micro_checkpoint
  | designing | cross_critique | checkpoint_1 | implementing | checkpoint_2
  | senior_review | reviewing | final_checkpoint | revision_1 | revision_2
  | complete | terminal
deriving DecidableEq, Repr

/-- The routing-relevant part of `DesignTeamState` (`graph/state.py`). -/
structure WState where
  confidence : ℚ
  milestone_flags : List Flag
  agent_trust : List (ℕ × ℚ)
  human_action : Option String
  human_feedback : String
  status : String
deriving Repr

/-- External data consumed by one node execution: the human response for a
checkpoint node, or the milestone flags collected by a work node's reviews. -/
inductive NodeInput where
  | human (action : String) (feedback : String)
  | work (flags : List Flag)
  | unit
deriving Repr

/-- Initial state built by `LangGraphSessionManager._run_graph`
(`graph/session_manager_lg.py` lines 223-241): confidence
`CONFIDENCE_INIT`, empty flags, status `"running"`. -/
def initWState (agent_trust : List (ℕ × ℚ)) : WState :=
  { confidence := CONFIDENCE_INIT
    milestone_flags := []
    agent_trust := agent_trust
    human_action := some ""
    human_feedback := ""
    status := "running" }

/-- State update of `_process_checkpoint_response` (`graph/nodes.py` lines
53-80): the confidence update plus recording `human_action` /
`human_feedback`.  The action defaults to `"confirm"` when absent
(`response.get("action", "confirm")`), which `NodeInput.human` always
supplies. -/
def processResponse (s : WState) (action feedback : String) : WState :=
  { s with
    confidence := confidenceUpdate action s.confidence
    human_action := some action
    human_feedback := feedback }

/-- Gate view of a workflow state. -/
def WState.gate (s : WState) : GateState :=
  { milestone_flags := s.milestone_flags
    agent_trust := s.agent_trust
    confidence := s.confidence }

/-- One step of the graph: run node `n`'s state update, then follow its
outgoing (conditional) edge.  Transcribed node by node from
`graph/nodes.py` and edge by edge from `graph/builder.py` /
`graph/edges.py`.  LangGraph replaces a state key with the value a node
returns, so a work node returning `"milestone_flags": milestone_flags`
overwrites the list, and `checkpoint_1` / `checkpoint_2` returning
`"milestone_flags": []` clear it; the scope, kickoff-micro and final
checkpoint nodes return no `milestone_flags` key and leave it untouched. -/
def step (n : Node) (s : WState) (inp : NodeInput) : Node × WState :=
  match n with
  | .scoping => (.scope_checkpoint, s)
  | .scope_checkpoint =>
    match inp with
    | .human a f => (.kickoff, processResponse s a f)
    | _ => (.kickoff, s)
  | .kickoff =>
    -- should_micro_checkpoint_kickoff: micro-checkpoint iff confidence < 0.5
    if s.confidence < 1/2 then (.kickoff_micro_checkpoint, s)
    else (.designing, s)
  | .kickoff_micro_checkpoint =>
    match inp with
    | .human a f => (.designing, processResponse s a f)
    | _ => (.designing, s)
  | .designing =>
    match inp with
    | .work flags => (.cross_critique, { s with milestone_flags := flags })
    | _ => (.cross_critique, { s with milestone_flags := [] })
  | .cross_critique =>
    if should_checkpoint_1 s.gate = "implementing" then (.implementing, s)
    else (.checkpoint_1, s)
  | .checkpoint_1 =>
    let s' := match inp with
      | .human a f => processResponse s a f
      | _ => s
    let s'' := { s' with milestone_flags := [] }
    if s''.human_action = some "revise" then (.revision_1, s'')
    else (.implementing, s'')
  | .revision_1 =>
    let flags := match inp with | .work fs => fs | _ => []
    (.cross_critique, { s with milestone_flags := flags, human_action := none })
  | .implementing =>
    let s' := match inp with
      | .work flags => { s with milestone_flags := flags }
      | _ => { s with milestone_flags := [] }
    if should_checkpoint_2 s'.gate = "senior_review" then (.senior_review, s')
    else (.checkpoint_2, s')
  | .checkpoint_2 =>
    let s' := match inp with
      | .human a f => processResponse s a f
      | _ => s
    let s'' := { s' with milestone_flags := [] }
    if s''.human_action = some "revise" then (.revision_2, s'')
    else (.senior_review, s'')
  | .revision_2 =>
    let flags := match inp with | .work fs => fs | _ => []
    (.checkpoint_2, { s with milestone_flags := flags, human_action := none })
  | .senior_review => (.reviewing, s)
  | .reviewing => (.final_checkpoint, s)
  | .final_checkpoint =>
    match inp with
    | .human a f => (.complete, processResponse s a f)
    | _ => (.complete, s)
  | .complete => (.terminal, { s with status := "complete" })
  | .terminal => (.terminal, s)

/-- Run a sequence of steps, consuming one `NodeInput` per step. -/
def run (n : Node) (s : WState) : List NodeInput → Node × WState
  | [] => (n, s)
  | inp :: rest =>
    let (n', s') := step n s inp
    run n' s' rest

/-! ### Session event bus and reconnect recovery

Embedding of `LangGraphSessionManager` (`graph/session_manager_lg.py`):
per-session status, recovery cache (`_current_phase`,
`_last_confirmation_prompt`), FIFO event queue, `confirm` and the
synthetic recovery burst at the head of `stream_events`.  Confirmation
prompt payloads are opaque; they are embedded as `ℕ` identifiers (the real
payloads are non-empty dicts, so Python truthiness of a cached prompt
coincides with `Option.isSome`). -/

/-- An SSE event as placed on a session's queue. -/
inductive Ev where
  | phase_change (phase : String)
  | confirmation_prompt (payload : ℕ)
  | confirmation_cleared
  | activity (payload : ℕ)
  | ping
  | session_complete
  | session_error (msg : String)
deriving DecidableEq, Repr

/-- Per-session runtime data (`LGSessionData`). -/
structure LGSession where
  status : String
  current_phase : String
  last_confirmation_prompt : Option ℕ
  queue : List Ev
  resume_data : Option (String × String)
deriving DecidableEq, Repr

/-- The synthetic recovery burst emitted at the head of
`stream_events` (`graph/session_manager_lg.py` lines 127-130): always a
`phase_change` with the cached phase, then the cached prompt when the
session is awaiting confirmation and a prompt is cached. -/
def attachBurst (d : LGSession) : List Ev :=
  Ev.phase_change d.current_phase ::
    (if d.status = "awaiting_confirm" then
      match d.last_confirmation_prompt with
      | some p => [Ev.confirmation_prompt p]
      | none => []
    else [])

/-- Cache update applied to each event drained from the queue
(`stream_events` lines 137-145): a `phase_change` refreshes
`_current_phase`, a `confirmation_prompt` refreshes the cached prompt. -/
def cacheUpdate (d : LGSession) (e : Ev) : LGSession :=
  match e with
  | .phase_change p => { d with current_phase := p }
  | .confirmation_prompt p => { d with last_confirmation_prompt := some p }
  | _ => d

/-- Whether an event terminates the stream loop
(`event["event"] in ("session_complete", "session_error")`). -/
def Ev.isTerminal : Ev → Bool
  | .session_complete => true
  | .session_error _ => true
  | _ => false

/-- Drain the whole queue, yielding events in order and folding the cache
updates (the `while True` loop of `stream_events`, stopping at a terminal
event). -/
def drainQueue (d : LGSession) : List Ev → List Ev × LGSession
  | [] => ([], { d with queue := [] })
  | e :: rest =>
    let d' := cacheUpdate d e
    if e.isTerminal then
      ([e], { d' with queue := rest })
    else
      let (evs, d'') := drainQueue d' rest
      (e :: evs, d'')

/-- Sessions map of the manager (`self._sessions`). -/
def Sessions := List (String × LGSession)

/-- Dict lookup `self._sessions.get(session_id)`. -/
def Sessions.get? (ss : Sessions) (sid : String) : Option LGSession :=
  match ss.find? (fun p => p.1 == sid) with
  | some p => some p.2
  | none => none

/-- Replace the entry for `sid`. -/
def Sessions.set (ss : Sessions) (sid : String) (d : LGSession) : Sessions :=
  ss.map (fun p => if p.1 == sid then (p.1, d) else p)

/-- `LangGraphSessionManager.confirm` (`graph/session_manager_lg.py` lines
94-108): returns `False` when the session is unknown or not awaiting a
confirmation; otherwise stores the resume data, moves the session back to
`"running"`, clears the cached prompt, enqueues a `confirmation_cleared`
event, signals the resume event and returns `True`.
(`SessionManager.confirm` in `session_manager.py` lines 108-115 performs
the same status check and status transition.) -/
def confirm (ss : Sessions) (sid : String) (action feedback : String) :
    Bool × Sessions :=
  match ss.get? sid with
  | none => (false, ss)
  | some d =>
    if d.status ≠ "awaiting_confirm" then (false, ss)
    else
      (true, ss.set sid
        { d with
          resume_data := some (action, feedback)
          status := "running"
          last_confirmation_prompt := none
          queue := d.queue ++ [Ev.confirmation_cleared] })

/-- Full event stream observed by a fresh consumer attachment: the
synthetic recovery burst followed by the queue drain. -/
def streamEvents (d : LGSession) : List Ev :=
  attachBurst d ++ (drainQueue d d.queue).1

/-! ### Streaming field extractor

Embedding of `_HtmlStreamExtractor` (`agents/junior_designer.py` lines
12-94).  Python `str` values are sequences of Unicode code points (possibly
lone surrogates, which `chr` happily produces), so text is embedded as
`List ℕ` of code points.  The sink callback receives successive fragments;
only their concatenation matters to the claims, so `feed` returns the
concatenated output of the call. -/

/-- Code points of a Lean string literal (all literals used here are
ASCII, where Lean chars and Python code points agree). -/
def codes (s : String) : List ℕ := s.toList.map Char.toNat

/-- The field marker `'"html_prototype"'` (`_MARKER`). -/
def markerL : List ℕ := codes "\"html_prototype\""

/-- First index at which `pat` occurs as a contiguous sublist, mirroring
Python `str.find` (which returns 0 when the pattern is empty). -/
def findSub (pat : List ℕ) : List ℕ → Option ℕ
  | [] => if pat.isEmpty then some 0 else none
  | c :: rest =>
    if pat.isPrefixOf (c :: rest) then some 0
    else (findSub pat rest).map (· + 1)

/-- Last `n` elements, mirroring `buf[-n:] if len(buf) > n else buf`. -/
def takeLast (n : ℕ) (l : List ℕ) : List ℕ := l.drop (l.length - n)

/-- Python whitespace accepted by `int()` (ASCII range). -/
def isPyWs (c : ℕ) : Bool :=
  c == 32 || c == 9 || c == 10 || c == 13 || c == 12 || c == 11

/-- Value of one hexadecimal digit (`0-9`, `a-f`, `A-F`). -/
def hexDigitVal (c : ℕ) : Option ℕ :=
  if 48 ≤ c ∧ c ≤ 57 then some (c - 48)
  else if 97 ≤ c ∧ c ≤ 102 then some (c - 87)
  else if 65 ≤ c ∧ c ≤ 70 then some (c - 55)
  else none

/-- Continue parsing hex digits after at least one digit: Python's integer
literals allow single underscores between digits. -/
def hexRest (acc : ℕ) : List ℕ → Option ℕ
  | [] => some acc
  | c :: rest =>
    if c = 95 then
      match rest with
      | d :: rest2 =>
        match hexDigitVal d with
        | some v => hexRest (16 * acc + v) rest2
        | none => none
      | [] => none
    else
      match hexDigitVal c with
      | some v => hexRest (16 * acc + v) rest
      | none => none

/-- Digits after a `0x` / `0X` base marker (an underscore may directly
follow the marker). -/
def hexAfterBaseMark : List ℕ → Option ℕ
  | [] => none
  | c :: rest =>
    if c = 95 then
      match rest with
      | d :: rest2 => (hexDigitVal d).bind fun v => hexRest v rest2
      | [] => none
    else
      (hexDigitVal c).bind fun v => hexRest v rest

/-- Unsigned part of `int(s, 16)`: optional `0x`/`0X` base marker, then hex
digits with single underscores between them. -/
def hexNum : List ℕ → Option ℕ
  | [] => none
  | c :: rest =>
    if c = 48 then
      match rest with
      | x :: rest2 =>
        if x = 120 ∨ x = 88 then hexAfterBaseMark rest2
        else hexRest 0 (x :: rest2)
      | [] => some 0
    else (hexDigitVal c).bind fun v => hexRest v rest

/-- Signed part: an optional leading `+` or `-`. -/
def hexSigned : List ℕ → Option ℤ
  | [] => none
  | c :: rest =>
    if c = 43 then (hexNum rest).map Int.ofNat
    else if c = 45 then (hexNum rest).map (fun n => -(n : ℤ))
    else (hexNum (c :: rest)).map Int.ofNat

/-- Python `int(s, 16)` on a code-point sequence (ASCII fragment):
strips surrounding whitespace, then sign, base marker and digits;
`none` models `ValueError`. -/
def pyIntHex (l : List ℕ) : Option ℤ :=
  hexSigned (((l.dropWhile isPyWs).reverse.dropWhile isPyWs).reverse)

/-- Python `chr` on the parse result: `none` models `ValueError` (raised
for negatives; 4 hex digits can never reach `0x110000`). -/
def pyChr (v : Option ℤ) : Option ℕ :=
  match v with
  | none => none
  | some v => if 0 ≤ v ∧ v ≤ 1114111 then some v.toNat else none

/-- Single-character escapes handled by the extract loop
(`\n`, `\t`, `\r`, `\"`, `\\`, `\/`; any other escaped character is
emitted unchanged). -/
def escMap (c : ℕ) : ℕ :=
  if c = 110 then 10
  else if c = 116 then 9
  else if c = 114 then 13
  else if c = 34 then 34
  else if c = 92 then 92
  else if c = 47 then 47
  else c

/-- Extractor states (`seek | skip_to_quote | extract | done`). -/
inductive ExtState where
  | seek | skipToQuote | extract | done
deriving DecidableEq, Repr

/-- Extractor instance state (`_buf`, `_state`, `_escape`). -/
structure Extractor where
  buf : List ℕ
  st : ExtState
  esc : Bool
deriving DecidableEq, Repr

/-- Freshly constructed extractor. -/
def initExtractor : Extractor := ⟨[], .seek, false⟩

/-- The `extract`-state scan loop of `feed` (lines 55-94): decode
characters up to the first unescaped `"`; a backslash sets the escape
flag; an escaped `u` followed by at least four more buffered characters
consumes them as a hex escape (`chr(int(..., 16))`, degrading to the
literal `\uXXXX` text on `ValueError`); an escaped `u` too close to the
end of the buffer is emitted as a literal `u`.  Returns the concatenated
sink output and the resulting extractor. -/
def extractLoop : Bool → List ℕ → List ℕ × Extractor
  | esc, [] => ([], ⟨[], .extract, esc⟩)
  | true, 117 :: d1 :: d2 :: d3 :: d4 :: rest4 =>
    let res := extractLoop false rest4
    match pyChr (pyIntHex [d1, d2, d3, d4]) with
    | some v => (v :: res.1, res.2)
    | none => (92 :: 117 :: d1 :: d2 :: d3 :: d4 :: res.1, res.2)
  | true, c :: rest =>
    -- an escaped `u` with fewer than four following characters in the
    -- buffer falls through to the plain-append branch, and `escMap` is the
    -- identity on `u` (117), so a single arm covers both source branches
    let res := extractLoop false rest
    (escMap c :: res.1, res.2)
  | false, c :: rest =>
    if c = 92 then extractLoop true rest
    else if c = 34 then ([], ⟨[], .done, false⟩)
    else
      let res := extractLoop false rest
      (c :: res.1, res.2)

/-- The `skip_to_quote` stage of `feed` (lines 47-53): look for the opening
quote; when absent keep at most the last 4 buffered characters. -/
def feedSkip (esc : Bool) (b : List ℕ) : List ℕ × Extractor :=
  match findSub [34] b with
  | none => ([], ⟨takeLast 4 b, .skipToQuote, esc⟩)
  | some q => extractLoop esc (b.drop (q + 1))

/-- The `seek` stage of `feed` (lines 37-45): look for the field marker;
when absent keep at most the last `len(marker) - 1` buffered characters. -/
def feedSeek (esc : Bool) (b : List ℕ) : List ℕ × Extractor :=
  match findSub markerL b with
  | none => ([], ⟨takeLast (markerL.length - 1) b, .seek, esc⟩)
  | some i => feedSkip esc (b.drop (i + markerL.length))

/-- One `feed(raw)` call: a no-op in the `done` state, otherwise append
`raw` to the buffer and run the stage machine. -/
def feed (e : Extractor) (raw : List ℕ) : List ℕ × Extractor :=
  match e.st with
  | .done => ([], e)
  | .seek => feedSeek e.esc (e.buf ++ raw)
  | .skipToQuote => feedSkip e.esc (e.buf ++ raw)
  | .extract => extractLoop e.esc (e.buf ++ raw)

/-- Feed a sequence of chunks, concatenating the sink output. -/
def feedAll (e : Extractor) : List (List ℕ) → List ℕ × Extractor
  | [] => ([], e)
  | c :: cs =>
    let r1 := feed e c
    let r2 := feedAll r1.2 cs
    (r1.1 ++ r2.1, r2.2)

/-! Reference definitions for the extractor claims (written from the
specification's notion of a well-formed string field and its unescaped
value, to be compared against the machine above). -/

/-- A well-formed escaped string body as it appears between the quotes of
the target field: no unescaped `"`, no dangling final backslash, and every
`\u` escape carries exactly four hex digits. -/
def validBody : List ℕ → Bool
  | [] => true
  | 92 :: 117 :: d1 :: d2 :: d3 :: d4 :: rest3 =>
    (hexDigitVal d1).isSome && (hexDigitVal d2).isSome &&
      (hexDigitVal d3).isSome && (hexDigitVal d4).isSome &&
      validBody rest3
  | 92 :: 117 :: _ => false
  | [92] => false
  | 92 :: e :: rest2 => validBody rest2
  | c :: rest => (c != 34) && validBody rest

/-- Numeric value of a four-hex-digit escape. -/
def hexQuad (d1 d2 d3 d4 : ℕ) : ℕ :=
  4096 * (hexDigitVal d1).getD 0 + 256 * (hexDigitVal d2).getD 0 +
    16 * (hexDigitVal d3).getD 0 + (hexDigitVal d4).getD 0

/-- The unescaped value of a well-formed body: backslash escapes decoded
(`\n`, `\t`, `\r`, `\"`, `\\`, `\/` and four-hex-digit `\uXXXX`), other
escaped characters kept as themselves. -/
def refUnescape : List ℕ → List ℕ
  | [] => []
  | 92 :: 117 :: d1 :: d2 :: d3 :: d4 :: rest3 =>
    hexQuad d1 d2 d3 d4 :: refUnescape rest3
  | [92] => []
  | 92 :: e :: rest2 => escMap e :: refUnescape rest2
  | c :: rest => c :: refUnescape rest

/-- No escaped `u` in the scan of this buffer is cut off from its four
following characters by the end of the buffer (scanning stops at the first
unescaped quote, as the extract loop does). -/
def noTruncU : Bool → List ℕ → Bool
  | _, [] => true
  | true, 117 :: _ :: _ :: _ :: _ :: rest4 => noTruncU false rest4
  | true, 117 :: _ => false
  | true, _ :: rest => noTruncU false rest
  | false, c :: rest =>
    if c = 92 then noTruncU true rest
    else if c = 34 then true
    else noTruncU false rest

/-- Safety of the remainder of a feed call that is still looking for the
opening quote. -/
def skipSafe (esc : Bool) (b : List ℕ) : Bool :=
  match findSub [34] b with
  | none => true
  | some q => noTruncU esc (b.drop (q + 1))

/-- Safety of a feed call that is still looking for the field marker. -/
def seekSafe (esc : Bool) (b : List ℕ) : Bool :=
  match findSub markerL b with
  | none => true
  | some i => skipSafe esc (b.drop (i + markerL.length))

/-- The feed call `feed e raw` never cuts a `\uXXXX` escape off from its
hex digits at the end of its buffer (the one situation in which the
extractor's output differs from feeding the same text in one piece). -/
def feedSafe (e : Extractor) (raw : List ℕ) : Bool :=
  match e.st with
  | .done => true
  | .extract => noTruncU e.esc (e.buf ++ raw)
  | .skipToQuote => skipSafe e.esc (e.buf ++ raw)
  | .seek => seekSafe e.esc (e.buf ++ raw)

/-- Every feed call of the chunk sequence is safe in the sense of
`feedSafe`. -/
def allSafe (e : Extractor) : List (List ℕ) → Bool
  | [] => true
  | c :: cs => feedSafe e c && allSafe (feed e c).2 cs

/-- Potential of an extractor state: buffered characters plus one for a
pending escape flag (whose consumed backslash is not yet emitted). -/
def pot (e : Extractor) : ℕ := e.buf.length + e.esc.toNat

/-! ### Malformed-result recovery (Junior Designer)

Embedding of the parse-and-recover logic of `JuniorDesigner.run`
(`agents/junior_designer.py` lines 199-211 and 306-321).  The raw LLM text
and the `clean_json`/`json.loads` pipeline are external; what matters to
the claim is the outcome of that pipeline: either an exception
(`Except.error`), or a parsed JSON value that may or may not be an
object.  JSON values are embedded as `JVal`. -/

/-- A parsed JSON value. -/
inductive JVal where
  | str (s : String)
  | num (q : ℚ)
  | bool (b : Bool)
  | null
  | arr (items : List JVal)
  | obj (fields : List (String × JVal))
deriving Repr

/-- Python `isinstance(v, dict)`. -/
def JVal.isObj : JVal → Bool
  | .obj _ => true
  | _ => false

/-- Python `d.get(key, default)` on an object (first binding wins);
non-objects have no `get`, but every call site below guards with
`isObj`. -/
def JVal.get (v : JVal) (key : String) (default : JVal) : JVal :=
  match v with
  | .obj fields =>
    match fields.find? (fun p => p.1 == key) with
    | some p => p.2
    | none => default
  | _ => default

/-- The list-of-components accessor used throughout `JuniorDesigner.run`
and `checkpoint_2_node`: `x.get("components", [])` followed by the
`isinstance(..., list)` guard that degrades non-lists to `[]`. -/
def getComponents (v : JVal) : List JVal :=
  match v.get "components" (.arr []) with
  | .arr items => items
  | _ => []

/-- Recovery of the phase-1 (core components) parse
(`junior_designer.py` lines 199-205): a parse exception or a non-dict
result is replaced by `{"components": []}`. -/
def coreRecover (outcome : Except String JVal) : JVal :=
  match outcome with
  | .ok v => if v.isObj then v else .obj [("components", .arr [])]
  | .error _ => .obj [("components", .arr [])]

/-- Recovery of the phase-2 (prototype) parse (`junior_designer.py` lines
306-316): a non-dict result is replaced by an empty default; a parse
exception is replaced by a default that wraps the raw text (truncated) in
a fallback prototype page. -/
def protoRecover (raw : String) (outcome : Except String JVal) : JVal :=
  match outcome with
  | .ok v =>
    if v.isObj then v
    else .obj [("components", .arr []), ("html_prototype", .str ""),
               ("implementation_notes", .str "")]
  | .error _ =>
    .obj [("components", .arr []),
          ("html_prototype",
            .str ("<html><body><pre>" ++ (raw.take 2000) ++ "</pre></body></html>")),
          ("implementation_notes", .str (raw.take 300))]

/-- The combined run result (`junior_designer.py` lines 340-346):
concatenated component lists plus the prototype fields. -/
def combineJunior (core proto : JVal) : JVal :=
  .obj [("components", .arr (getComponents core ++ getComponents proto)),
        ("html_prototype", proto.get "html_prototype" (.str "")),
        ("implementation_notes", proto.get "implementation_notes" (.str ""))]

/-- The component count shown in the checkpoint-2 context
(`graph/nodes.py` line 331: `len(junior_out.get("components", []))`). -/
def checkpoint2CompCount (junior_out : JVal) : ℕ :=
  (getComponents junior_out).length

/-- The whole parse-and-recover portion of `JuniorDesigner.run` for given
parse outcomes: it is a total function — a parse failure is absorbed, never
re-raised. -/
def juniorRunResult (core_outcome : Except String JVal) (proto_raw : String)
    (proto_outcome : Except String JVal) : JVal :=
  combineJunior (coreRecover core_outcome) (protoRecover proto_raw proto_outcome)

/-! ### Milestone review flag callbacks

Embedding of the milestone hooks defined inside `designing_node`,
`implementing_node`, `revision_1_node` and `revision_2_node`
(`graph/nodes.py`), and identically inside `SessionManager._run_workflow`
(`session_manager.py` lines 315-331, 373-383 — the primary hooks there
carry the same trust guard).  A hook receives the Manager's review dict;
the fields it reads are embedded as `Review`. -/

/-- The fields of a Manager milestone review the hooks read:
`needs_human`, `score` (absent ⇒ default 10) and `reason`. -/
structure Review where
  needs_human : Bool
  score : Option ℚ
  reason : String

/-- Senior Designer hook in `designing_node` (lines 186-192): append a
non-critical flag iff the review needs a human and Senior's trust
(key 1, default 0.5) is below 0.7. -/
def seniorMilestoneFlag (agent_trust : List (ℕ × ℚ)) (r : Review) : Option Flag :=
  if r.needs_human ∧ dictGetD agent_trust 1 (1/2) < 7/10 then
    some ⟨r.reason, false⟩
  else none

/-- Visual Designer hook in `designing_node` (lines 194-200): same with
Visual's trust (key 3). -/
def visualMilestoneFlag (agent_trust : List (ℕ × ℚ)) (r : Review) : Option Flag :=
  if r.needs_human ∧ dictGetD agent_trust 3 (1/2) < 7/10 then
    some ⟨r.reason, false⟩
  else none

/-- Junior Designer hook in `implementing_node` (lines 290-299): append a
flag iff the review needs a human and Junior's trust (key 2) is below 0.7;
the flag is critical iff `review.get("score", 10) < 5`. -/
def juniorMilestoneFlag (agent_trust : List (ℕ × ℚ)) (r : Review) : Option Flag :=
  if r.needs_human ∧ dictGetD agent_trust 2 (1/2) < 7/10 then
    some ⟨r.reason, decide (r.score.getD 10 < 5)⟩
  else none

/-- Senior/Visual hooks in `revision_1_node` (lines 389-399): no trust
guard, flags always non-critical. -/
def revision1Flag (r : Review) : Option Flag :=
  if r.needs_human then some ⟨r.reason, false⟩ else none

/-- Junior hook in `revision_2_node` (lines 439-446): no trust guard,
critical iff `review.get("score", 10) < 5`. -/
def revision2Flag (r : Review) : Option Flag :=
  if r.needs_human then some ⟨r.reason, decide (r.score.getD 10 < 5)⟩ else none

/-- All flags collected by `designing_node` during one execution, given
the review each hook invocation received (Senior's reviews and Visual's
reviews; the append order under `asyncio.gather` interleaving does not
affect any claim). -/
def designingFlags (agent_trust : List (ℕ × ℚ))
    (seniorReviews visualReviews : List Review) : List Flag :=
  seniorReviews.filterMap (seniorMilestoneFlag agent_trust) ++
    visualReviews.filterMap (visualMilestoneFlag agent_trust)

/-- All flags collected by `implementing_node` during one execution. -/
def implementingFlags (agent_trust : List (ℕ × ℚ))
    (juniorReviews : List Review) : List Flag :=
  juniorReviews.filterMap (juniorMilestoneFlag agent_trust)

/-- All flags collected by `revision_1_node` during one execution. -/
def revision1Flags (seniorReviews visualReviews : List Review) : List Flag :=
  seniorReviews.filterMap revision1Flag ++ visualReviews.filterMap revision1Flag

/-! ## Claim theorems -/

/-- C1: the checkpoint gate decision is a deterministic function of session
state: fixed checkpoints (scope and final) always require an external
decision; an adaptive checkpoint self-approves iff no outstanding flag is
critical and the confidence is at least the adaptive threshold computed
from the gatekeeper's trust (manager key 0, default 0.5); the conditional
edges realise exactly this gate; with confidence 0.8, trust 0.5
(threshold 0.75) and no critical flags it self-approves, and with a
critical flag outstanding it requires a decision regardless of
confidence. -/
theorem C1_checkpoint_gate :
    (∀ s : GateState, fixedGate s = .requireDecision) ∧
    (∀ s : GateState, adaptiveGate s = .selfApprove ↔
      (hasCriticalFlag s.milestone_flags = false ∧
        effectiveThreshold s.agent_trust ≤ s.confidence)) ∧
    (∀ s : GateState, should_checkpoint_1 s = "implementing" ↔
      adaptiveGate s = .selfApprove) ∧
    (∀ s : GateState, should_checkpoint_2 s = "senior_review" ↔
      adaptiveGate s = .selfApprove) ∧
    adaptiveGate ⟨[], [(0, 1/2)], 4/5⟩ = .selfApprove ∧
    (∀ (flags : List Flag) (trust : List (ℕ × ℚ)) (c : ℚ),
      hasCriticalFlag flags = true →
      adaptiveGate ⟨flags, trust, c⟩ = .requireDecision) := by
  have key : ∀ s : GateState, adaptiveGate s = .selfApprove ↔
      (hasCriticalFlag s.milestone_flags = false ∧
        effectiveThreshold s.agent_trust ≤ s.confidence) := by
    intro s
    unfold adaptiveGate
    by_cases hc : hasCriticalFlag s.milestone_flags
    · rw [if_neg (fun h => h.1 hc)]
      simp [hc]
    · by_cases hq : effectiveThreshold s.agent_trust ≤ s.confidence
      · rw [if_pos ⟨hc, hq⟩]
        simp [Bool.not_eq_true] at hc
        simp [hc, hq]
      · rw [if_neg (fun h => hq h.2)]
        simp [hq]
  refine ⟨fun s => rfl, key, fun s => ?_, fun s => ?_, ?_, ?_⟩
  · rw [key]
    unfold should_checkpoint_1
    by_cases hc : hasCriticalFlag s.milestone_flags
    · rw [if_neg (fun h => h.1 hc)]
      simp [hc]
    · by_cases hq : effectiveThreshold s.agent_trust ≤ s.confidence
      · rw [if_pos ⟨hc, hq⟩]
        simp [Bool.not_eq_true] at hc
        simp [hc, hq]
      · rw [if_neg (fun h => hq h.2)]
        simp [hq]
  · rw [key]
    unfold should_checkpoint_2
    by_cases hc : hasCriticalFlag s.milestone_flags
    · rw [if_neg (fun h => h.1 hc)]
      simp [hc]
    · by_cases hq : effectiveThreshold s.agent_trust ≤ s.confidence
      · rw [if_pos ⟨hc, hq⟩]
        simp [Bool.not_eq_true] at hc
        simp [hc, hq]
      · rw [if_neg (fun h => hq h.2)]
        simp [hq]
  · rw [key]
    norm_num [hasCriticalFlag, effectiveThreshold, dictGetD, List.find?]
  · intro flags trust c h
    unfold adaptiveGate
    rw [if_neg]
    intro hc
    exact hc.1 h

/-- Witness for C1 at a concrete critical flag. -/
theorem C1_checkpoint_gate_witness :
    adaptiveGate ⟨[⟨"low score", true⟩], [], 1⟩ = .requireDecision :=
  C1_checkpoint_gate.2.2.2.2.2 [⟨"low score", true⟩] [] 1 (by decide)

/-- C2 (code bug): the code's `_effective_threshold` (both copies) is
`max(0.5, 1 - trust)` of the manager's trust entry with default 0.5; that
formula is non-increasing, stays in `[0.5, 1]` for trust in `[0, 1]`,
gives 0.5 at trust 1 and 1 at trust 0 — but at the documented default
trust 0.5 it yields `max(0.5, 0.5) = 0.5`, not the 0.75 the claim (and
the function's own docstring, the module documentation and the unused
`CONFIDENCE_SELF_APPROVE_THRESHOLD = 0.75` constant) promise. -/
theorem C2_adaptive_threshold :
    (∀ t : ℚ, effectiveThreshold [(0, t)] = max (1/2) (1 - t)) ∧
    (∀ t t' : ℚ, t ≤ t' →
      effectiveThreshold [(0, t')] ≤ effectiveThreshold [(0, t)]) ∧
    (∀ t : ℚ, 0 ≤ t → t ≤ 1 →
      1/2 ≤ effectiveThreshold [(0, t)] ∧ effectiveThreshold [(0, t)] ≤ 1) ∧
    effectiveThreshold [(0, 1)] = 1/2 ∧
    effectiveThreshold [(0, 0)] = 1 ∧
    (effectiveThreshold [(0, 1/2)] = 1/2 ∧ effectiveThreshold [(0, 1/2)] ≠ 3/4) ∧
    (effectiveThreshold [] = 1/2 ∧ effectiveThreshold [] ≠ 3/4) := by
  have base : ∀ t : ℚ, effectiveThreshold [(0, t)] = max (1/2) (1 - t) := by
    intro t
    simp [effectiveThreshold, dictGetD, List.find?]
  refine ⟨base, ?_, ?_, ?_, ?_, ?_, ?_⟩
  · intro t t' h
    rw [base, base]
    exact max_le_max (le_refl _) (by linarith)
  · intro t h0 h1
    rw [base]
    constructor
    · exact le_max_left _ _
    · exact max_le (by norm_num) (by linarith)
  · rw [base]; norm_num
  · rw [base]; norm_num
  · rw [base]; norm_num
  · norm_num [effectiveThreshold, dictGetD]

/-- Witness for C2 at trust 1/4 ≤ 3/4. -/
theorem C2_adaptive_threshold_witness :
    effectiveThreshold [(0, (3/4 : ℚ))] ≤ effectiveThreshold [(0, (1/4 : ℚ))] ∧
    1/2 ≤ effectiveThreshold [(0, (1/4 : ℚ))] ∧
    effectiveThreshold [(0, (1/4 : ℚ))] ≤ 1 :=
  ⟨C2_adaptive_threshold.2.1 (1/4) (3/4) (by norm_num),
    (C2_adaptive_threshold.2.2.1 (1/4) (by norm_num) (by norm_num)).1,
    (C2_adaptive_threshold.2.2.1 (1/4) (by norm_num) (by norm_num)).2⟩

/-- C3: a `confirm` resolution updates confidence to `min(1, c + 0.10)`
and a `revise` resolution to `max(0, c - 0.20)`; both compositions stay
inside `[0, 1]` for `c ∈ [0, 1]`; and a new session starts with
confidence 0.5. -/
theorem C3_confidence_update :
    (∀ c : ℚ, confidenceUpdate "confirm" c = min 1 (c + 1/10)) ∧
    (∀ c : ℚ, confidenceUpdate "revise" c = max 0 (c - 1/5)) ∧
    (∀ c : ℚ, 0 ≤ c → c ≤ 1 →
      (0 ≤ on_approve (on_revise c) ∧ on_approve (on_revise c) ≤ 1) ∧
      (0 ≤ on_revise (on_approve c) ∧ on_revise (on_approve c) ≤ 1)) ∧
    (∀ trust : List (ℕ × ℚ), (initWState trust).confidence = 1/2) := by
  have ha : ∀ c : ℚ, on_approve c = min 1 (c + 1/10) := by
    intro c
    simp [on_approve, confidenceUpdate, CONFIDENCE_GAIN_APPROVED]
  have hr : ∀ c : ℚ, on_revise c = max 0 (c - 1/5) := by
    intro c
    simp [on_revise, confidenceUpdate, CONFIDENCE_LOSS_REVISED]
  refine ⟨?_, ?_, ?_, fun trust => rfl⟩
  · intro c
    simp [confidenceUpdate, CONFIDENCE_GAIN_APPROVED]
  · intro c
    simp [confidenceUpdate, CONFIDENCE_LOSS_REVISED]
  · intro c _ _
    constructor
    · rw [ha, hr]
      constructor
      · exact le_min (by norm_num) (by positivity)
      · exact min_le_left _ _
    · rw [hr, ha]
      constructor
      · exact le_max_left _ _
      · refine max_le (by norm_num) ?_
        have := min_le_left (1 : ℚ) (c + 1/10)
        linarith

/-- Witness for C3 at c = 1/2. -/
theorem C3_confidence_update_witness :
    (0 ≤ on_approve (on_revise (1/2 : ℚ)) ∧ on_approve (on_revise (1/2 : ℚ)) ≤ 1) ∧
    (0 ≤ on_revise (on_approve (1/2 : ℚ)) ∧ on_revise (on_approve (1/2 : ℚ)) ≤ 1) :=
  C3_confidence_update.2.2.1 (1/2) (by norm_num) (by norm_num)

/-- C4 counterexample: a concrete run of the graph in which an adaptive
checkpoint resolves by self-approval while the milestone flag list is NOT
empty immediately afterwards.  With a trust override of 0.8 for the
manager the threshold is `max(0.5, 0.2) = 0.5`; after the scope
checkpoint is confirmed the confidence is 0.6, the designing phase
appends one (non-critical) flag, and `should_checkpoint_1` then routes
straight to `implementing` — resolving checkpoint 1 by self-approval —
with the flag still outstanding. -/
theorem C4_flags_cleared_counterexample :
    (run .scoping (initWState [(0, 4/5)])
      [.unit, .human "confirm" "", .unit,
        .work [⟨"senior milestone needs review", false⟩], .unit]).1 =
      .implementing ∧
    (run .scoping (initWState [(0, 4/5)])
      [.unit, .human "confirm" "", .unit,
        .work [⟨"senior milestone needs review", false⟩], .unit]).2.milestone_flags =
      [⟨"senior milestone needs review", false⟩] := by
  constructor <;>
    norm_num [run, step, initWState, processResponse, confidenceUpdate,
      CONFIDENCE_INIT, CONFIDENCE_GAIN_APPROVED, CONFIDENCE_LOSS_REVISED,
      WState.gate, should_checkpoint_1, should_checkpoint_2, hasCriticalFlag,
      effectiveThreshold, dictGetD, List.find?, min_def, max_def]

/-- C4 amended: in the LangGraph workflow only the two interior adaptive
checkpoint nodes clear the milestone flags, and only when they actually
run (an external decision): immediately after `checkpoint_1` or
`checkpoint_2` resolves the flag list is empty, whereas a self-approval
(the conditional edge skipping the checkpoint node) leaves the flag list
untouched, and the fixed scope and final checkpoints (and the kickoff
micro-checkpoint) do not clear it either. -/
theorem C4_flags_cleared_amended :
    (∀ (s : WState) (i : NodeInput),
      (step .checkpoint_1 s i).2.milestone_flags = []) ∧
    (∀ (s : WState) (i : NodeInput),
      (step .checkpoint_2 s i).2.milestone_flags = []) ∧
    (∀ (s : WState) (i : NodeInput),
      (step .cross_critique s i).2.milestone_flags = s.milestone_flags) ∧
    (∀ (s : WState) (a f : String),
      (step .scope_checkpoint s (.human a f)).2.milestone_flags =
        s.milestone_flags) ∧
    (∀ (s : WState) (a f : String),
      (step .kickoff_micro_checkpoint s (.human a f)).2.milestone_flags =
        s.milestone_flags) ∧
    (∀ (s : WState) (a f : String),
      (step .final_checkpoint s (.human a f)).2.milestone_flags =
        s.milestone_flags) := by
  refine ⟨fun s i => ?_, fun s i => ?_, fun s i => ?_,
    fun s a f => rfl, fun s a f => rfl, fun s a f => rfl⟩
  · cases i <;> dsimp only [step] <;> split <;> rfl
  · cases i <;> dsimp only [step] <;> split <;> rfl
  · dsimp only [step]
    split <;> rfl

/-- Updating an existing session and looking it up again yields the
updated value. -/
theorem Sessions_get_set_self (ss : Sessions) (sid : String) (d : LGSession)
    (h : (Sessions.get? ss sid).isSome) :
    Sessions.get? (Sessions.set ss sid d) sid = some d := by
  induction ss with
  | nil => simp [Sessions.get?] at h
  | cons hd tl ih =>
    rcases hd with ⟨k, v⟩
    by_cases hh : k = sid
    · subst hh
      simp [Sessions.set, Sessions.get?, List.find?]
    · have hb : (k == sid) = false := by simp [hh]
      have hset : Sessions.set ((k, v) :: tl) sid d = (k, v) :: Sessions.set tl sid d := by
        simp [Sessions.set, hh]
      have hget : ∀ rest : Sessions,
          Sessions.get? ((k, v) :: rest) sid = Sessions.get? rest sid := by
        intro rest
        simp [Sessions.get?, List.find?, hb]
      rw [hget] at h
      rw [hset, hget]
      exact ih h

/-- C6: `confirm` reports protocol misuse as a boolean, never an
exception: it returns false for an unknown session id or when the session
is not awaiting a confirmation; when a decision is pending it stores the
decision, moves the session to `running`, and returns true — so a second
call against the same already-resumed checkpoint returns false. -/
theorem C6_confirm_protocol :
    (∀ (ss : Sessions) (sid a f : String),
      Sessions.get? ss sid = none → confirm ss sid a f = (false, ss)) ∧
    (∀ (ss : Sessions) (sid a f : String) (d : LGSession),
      Sessions.get? ss sid = some d → d.status ≠ "awaiting_confirm" →
      confirm ss sid a f = (false, ss)) ∧
    (∀ (ss : Sessions) (sid a f : String) (d : LGSession),
      Sessions.get? ss sid = some d → d.status = "awaiting_confirm" →
      (confirm ss sid a f).1 = true ∧
      ∃ d', Sessions.get? (confirm ss sid a f).2 sid = some d' ∧
        d'.status = "running" ∧ d'.last_confirmation_prompt = none ∧
        d'.resume_data = some (a, f)) ∧
    (∀ (ss : Sessions) (sid a f a' f' : String),
      (confirm ss sid a f).1 = true →
      (confirm (confirm ss sid a f).2 sid a' f').1 = false) := by
  have third : ∀ (ss : Sessions) (sid a f : String) (d : LGSession),
      Sessions.get? ss sid = some d → d.status = "awaiting_confirm" →
      (confirm ss sid a f).1 = true ∧
      ∃ d', Sessions.get? (confirm ss sid a f).2 sid = some d' ∧
        d'.status = "running" ∧ d'.last_confirmation_prompt = none ∧
        d'.resume_data = some (a, f) := by
    intro ss sid a f d hg hs
    unfold confirm
    rw [hg]
    dsimp only
    rw [if_neg (by simp [hs])]
    exact ⟨rfl, _, Sessions_get_set_self ss sid _ (by simp [hg]), rfl, rfl, rfl⟩
  refine ⟨?_, ?_, third, ?_⟩
  · intro ss sid a f h
    unfold confirm
    rw [h]
  · intro ss sid a f d hg hs
    unfold confirm
    rw [hg]
    dsimp only
    rw [if_pos hs]
  · intro ss sid a f a' f' h
    rcases hg : Sessions.get? ss sid with _ | d
    · unfold confirm at h
      rw [hg] at h
      simp at h
    · by_cases hs : d.status = "awaiting_confirm"
      · obtain ⟨-, d', hd', hrun, -, -⟩ := third ss sid a f d hg hs
        generalize hC : (confirm ss sid a f).2 = C at hd'
        unfold confirm
        rw [hd']
        dsimp only
        rw [if_pos (by simp [hrun])]
      · unfold confirm at h
        rw [hg] at h
        dsimp only at h
        rw [if_pos hs] at h
        simp at h

/-- Witness for C6 on a concrete one-session map. -/
theorem C6_confirm_protocol_witness :
    (confirm [("s1", ⟨"awaiting_confirm", "designing", some 3, [], none⟩)]
      "s1" "confirm" "ok").1 = true ∧
    (confirm (confirm [("s1", ⟨"awaiting_confirm", "designing", some 3, [], none⟩)]
      "s1" "confirm" "ok").2 "s1" "revise" "").1 = false :=
  ⟨(C6_confirm_protocol.2.2.1 [("s1", ⟨"awaiting_confirm", "designing", some 3, [], none⟩)]
      "s1" "confirm" "ok" ⟨"awaiting_confirm", "designing", some 3, [], none⟩
      (by decide) rfl).1,
    C6_confirm_protocol.2.2.2 [("s1", ⟨"awaiting_confirm", "designing", some 3, [], none⟩)]
      "s1" "confirm" "ok" "revise" ""
      (C6_confirm_protocol.2.2.1 [("s1", ⟨"awaiting_confirm", "designing", some 3, [], none⟩)]
        "s1" "confirm" "ok" ⟨"awaiting_confirm", "designing", some 3, [], none⟩
        (by decide) rfl).1⟩

/-- C5 counterexample: a session that is awaiting a confirmation whose
prompt event is still sitting (unconsumed) in the queue — no consumer has
drained it yet, so the recovery cache `_last_confirmation_prompt` is still
`None`.  A fresh attachment then receives only the synthetic
`phase_change`: the pending prompt is NOT replayed before queue draining,
contradicting the claimed "if and only if a decision is pending". -/
theorem C5_reconnect_replay_counterexample :
    attachBurst ⟨"awaiting_confirm", "designing", none, [.confirmation_prompt 7], none⟩ =
      [.phase_change "designing"] ∧
    (⟨"awaiting_confirm", "designing", none, [.confirmation_prompt 7], none⟩ :
      LGSession).status = "awaiting_confirm" ∧
    attachBurst ⟨"awaiting_confirm", "designing", none, [.confirmation_prompt 7], none⟩ ≠
      [.phase_change "designing", .confirmation_prompt 7] := by
  refine ⟨by decide, rfl, by decide⟩

/-- C5 amended: a fresh attachment always first receives a synthetic
`phase_change` carrying the cached current phase; it additionally receives
a `confirmation_prompt` replay (the cached prompt) before queue draining
iff the session is awaiting a decision AND a prompt has been cached
(i.e. the prompt was drained by some earlier consumer); after a `decide`
call resolves the checkpoint the cache is cleared, so a subsequent fresh
attachment replays no prompt. -/
theorem C5_reconnect_replay_amended :
    (∀ d : LGSession, ∃ rest,
      streamEvents d = .phase_change d.current_phase :: rest) ∧
    (∀ d : LGSession,
      d.status = "awaiting_confirm" → d.last_confirmation_prompt.isSome →
      attachBurst d = [.phase_change d.current_phase,
        .confirmation_prompt (d.last_confirmation_prompt.getD 0)]) ∧
    (∀ d : LGSession,
      ¬(d.status = "awaiting_confirm" ∧ d.last_confirmation_prompt.isSome) →
      attachBurst d = [.phase_change d.current_phase]) ∧
    (∀ (ss : Sessions) (sid a f : String) (d' : LGSession),
      (confirm ss sid a f).1 = true →
      Sessions.get? (confirm ss sid a f).2 sid = some d' →
      attachBurst d' = [.phase_change d'.current_phase]) := by
  have snd : ∀ d : LGSession,
      d.status = "awaiting_confirm" → d.last_confirmation_prompt.isSome →
      attachBurst d = [.phase_change d.current_phase,
        .confirmation_prompt (d.last_confirmation_prompt.getD 0)] := by
    intro d hs hp
    rcases hlp : d.last_confirmation_prompt with _ | p
    · rw [hlp] at hp
      simp at hp
    · simp [attachBurst, hs, hlp]
  have thrd : ∀ d : LGSession,
      ¬(d.status = "awaiting_confirm" ∧ d.last_confirmation_prompt.isSome) →
      attachBurst d = [.phase_change d.current_phase] := by
    intro d hn
    unfold attachBurst
    by_cases hs : d.status = "awaiting_confirm"
    · rcases hlp : d.last_confirmation_prompt with _ | p
      · simp [hs]
      · exact absurd ⟨hs, by simp [hlp]⟩ hn
    · simp [hs]
  refine ⟨fun d => ⟨_, rfl⟩, snd, thrd, ?_⟩
  · intro ss sid a f d' h hd'
    rcases hg : Sessions.get? ss sid with _ | d
    · unfold confirm at h
      rw [hg] at h
      simp at h
    · by_cases hs : d.status = "awaiting_confirm"
      · unfold confirm at hd'
        rw [hg] at hd'
        dsimp only at hd'
        rw [if_neg (by simp [hs])] at hd'
        rw [Sessions_get_set_self ss sid _ (by simp [hg])] at hd'
        cases hd'
        exact thrd _ (by simp)
      · unfold confirm at h
        rw [hg] at h
        dsimp only at h
        rw [if_pos hs] at h
        simp at h

/-- Witness for C5 amended at concrete sessions. -/
theorem C5_reconnect_replay_amended_witness :
    attachBurst ⟨"awaiting_confirm", "implementing", some 5, [], none⟩ =
      [.phase_change "implementing", .confirmation_prompt 5] ∧
    attachBurst ⟨"running", "scoping", none, [], none⟩ =
      [.phase_change "scoping"] :=
  ⟨C5_reconnect_replay_amended.2.1 ⟨"awaiting_confirm", "implementing", some 5, [], none⟩
      rfl rfl,
    C5_reconnect_replay_amended.2.2.1 ⟨"running", "scoping", none, [], none⟩
      (by decide)⟩

/-- C9: a malformed structured result is recovered locally — the recovery
functions are total, always produce an object (never re-raise), substitute
the documented empty/default structures, and the empty substitution is
visible downstream as zero component counts in the checkpoint-2 context
and the final combined output. -/
theorem C9_malformed_result_recovery :
    (∀ m : String, coreRecover (.error m) = .obj [("components", .arr [])]) ∧
    (∀ v : JVal, v.isObj = false →
      coreRecover (.ok v) = .obj [("components", .arr [])]) ∧
    (∀ o : Except String JVal, (coreRecover o).isObj = true) ∧
    (∀ (raw : String) (o : Except String JVal),
      (protoRecover raw o).isObj = true) ∧
    (∀ (m m' raw : String),
      checkpoint2CompCount (juniorRunResult (.error m) raw (.error m')) = 0) ∧
    (∀ (co : Except String JVal) (raw : String) (po : Except String JVal),
      (juniorRunResult co raw po).isObj = true) := by
  refine ⟨fun m => rfl, ?_, ?_, ?_, fun m m' raw => rfl, fun co raw po => rfl⟩
  · intro v hv
    simp [coreRecover, hv]
  · intro o
    rcases o with m | v
    · rfl
    · by_cases hv : v.isObj
      · simp [coreRecover, hv]
      · simp only [coreRecover, if_neg hv]
        rfl
  · intro raw o
    rcases o with m | v
    · rfl
    · by_cases hv : v.isObj
      · simp [protoRecover, hv]
      · simp only [protoRecover, if_neg hv]
        rfl

/-- Witness for C9 at a concrete non-object value. -/
theorem C9_malformed_result_recovery_witness :
    coreRecover (.ok (.str "oops")) = .obj [("components", .arr [])] :=
  C9_malformed_result_recovery.2.1 (.str "oops") rfl

/-- C10: flags appended during the designing phase (Senior or Visual
milestone reviews, in the primary node and in the revision node) are
always non-critical; only the Junior Designer milestone hook of the
implementing phase can append a critical flag, and it marks the flag
critical exactly when the review's score (default 10) is below 5; and in
the primary work nodes a flag is appended iff the review reports
`needs_human` and the reviewed agent's trust (default 0.5) is below
0.7. -/
theorem C10_flag_provenance :
    (∀ (trust : List (ℕ × ℚ)) (srs vrs : List Review) (f : Flag),
      f ∈ designingFlags trust srs vrs → f.critical = false) ∧
    (∀ (srs vrs : List Review) (f : Flag),
      f ∈ revision1Flags srs vrs → f.critical = false) ∧
    (∀ (trust : List (ℕ × ℚ)) (r : Review) (f : Flag),
      juniorMilestoneFlag trust r = some f →
      (f.critical = true ↔ r.score.getD 10 < 5)) ∧
    (∀ (r : Review) (f : Flag),
      revision2Flag r = some f → (f.critical = true ↔ r.score.getD 10 < 5)) ∧
    (∀ (trust : List (ℕ × ℚ)) (r : Review),
      (seniorMilestoneFlag trust r).isSome ↔
        (r.needs_human = true ∧ dictGetD trust 1 (1/2) < 7/10)) ∧
    (∀ (trust : List (ℕ × ℚ)) (r : Review),
      (visualMilestoneFlag trust r).isSome ↔
        (r.needs_human = true ∧ dictGetD trust 3 (1/2) < 7/10)) ∧
    (∀ (trust : List (ℕ × ℚ)) (r : Review),
      (juniorMilestoneFlag trust r).isSome ↔
        (r.needs_human = true ∧ dictGetD trust 2 (1/2) < 7/10)) := by
  have opt_flag : ∀ (c : Prop) [Decidable c] (reason : String) (b : Bool) (f : Flag),
      (if c then some (⟨reason, b⟩ : Flag) else none) = some f → f.critical = b := by
    intro c _ reason b f h
    split at h
    · cases h; rfl
    · cases h
  refine ⟨?_, ?_, ?_, ?_, ?_, ?_, ?_⟩
  · intro trust srs vrs f hf
    rcases List.mem_append.mp hf with hmem | hmem <;>
      obtain ⟨r, -, hr⟩ := List.mem_filterMap.mp hmem
    · exact opt_flag _ _ _ _ hr
    · exact opt_flag _ _ _ _ hr
  · intro srs vrs f hf
    rcases List.mem_append.mp hf with hmem | hmem <;>
      obtain ⟨r, -, hr⟩ := List.mem_filterMap.mp hmem
    · exact opt_flag _ _ _ _ hr
    · exact opt_flag _ _ _ _ hr
  · intro trust r f h
    have := opt_flag _ _ _ _ h
    rw [this]
    simp [decide_eq_true_eq]
  · intro r f h
    have := opt_flag _ _ _ _ h
    rw [this]
    simp [decide_eq_true_eq]
  · intro trust r
    unfold seniorMilestoneFlag
    split
    · rename_i hcond
      simpa using hcond
    · rename_i hcond
      simpa using hcond
  · intro trust r
    unfold visualMilestoneFlag
    split
    · rename_i hcond
      simpa using hcond
    · rename_i hcond
      simpa using hcond
  · intro trust r
    unfold juniorMilestoneFlag
    split
    · rename_i hcond
      simpa using hcond
    · rename_i hcond
      simpa using hcond

/-- Witness for C10 on a concrete low-score Junior review and a concrete
designing-phase flag. -/
theorem C10_flag_provenance_witness :
    ((⟨"weak components", true⟩ : Flag).critical = true ↔
      ((some (3 : ℚ)).getD 10 < 5)) ∧
    (⟨"vague structure", false⟩ : Flag).critical = false := by
  have hj : juniorMilestoneFlag [] ⟨true, some 3, "weak components"⟩ =
      some ⟨"weak components", true⟩ := by
    unfold juniorMilestoneFlag
    rw [if_pos ⟨rfl, by norm_num [dictGetD]⟩]
    simp only [Option.getD]
    rw [decide_eq_true (by norm_num : (3 : ℚ) < 5)]
  have hs : seniorMilestoneFlag [] ⟨true, none, "vague structure"⟩ =
      some ⟨"vague structure", false⟩ := by
    unfold seniorMilestoneFlag
    rw [if_pos ⟨rfl, by norm_num [dictGetD]⟩]
  have hmem : (⟨"vague structure", false⟩ : Flag) ∈
      designingFlags [] [⟨true, none, "vague structure"⟩] [] := by
    simp [designingFlags, List.filterMap_cons, hs]
  exact ⟨C10_flag_provenance.2.2.1 [] _ _ hj,
    C10_flag_provenance.1 [] _ _ _ hmem⟩

/-! ### Extractor lemmas -/

/-- Character ranges of a hex digit. -/
theorem hexDigitVal_bounds {c v : ℕ} (h : hexDigitVal c = some v) :
    (48 ≤ c ∧ c ≤ 57) ∨ (97 ≤ c ∧ c ≤ 102) ∨ (65 ≤ c ∧ c ≤ 70) := by
  unfold hexDigitVal at h
  split_ifs at h with h1 h2 h3 <;> simp_all

/-- A hex digit's value is below 16. -/
theorem hexDigitVal_lt_16 {c v : ℕ} (h : hexDigitVal c = some v) : v < 16 := by
  unfold hexDigitVal at h
  split_ifs at h with h1 h2 h3 <;> simp_all <;> omega

/-- A hex digit is not whitespace, an underscore, a sign, or a base
marker. -/
theorem hex_not_special {c v : ℕ} (h : hexDigitVal c = some v) :
    isPyWs c = false ∧ c ≠ 95 ∧ c ≠ 43 ∧ c ≠ 45 ∧ c ≠ 120 ∧ c ≠ 88 := by
  rcases hexDigitVal_bounds h with h' | h' | h' <;>
    exact ⟨by simp [isPyWs]; omega, by omega, by omega, by omega, by omega, by omega⟩

/-- One clean step of the digit parser. -/
theorem hexRest_cons {c v : ℕ} (acc : ℕ) (rest : List ℕ)
    (h : hexDigitVal c = some v) :
    hexRest acc (c :: rest) = hexRest (16 * acc + v) rest := by
  have hs := hex_not_special h
  rw [hexRest.eq_def]
  dsimp only
  rw [if_neg hs.2.1, h]

/-- Python `int(s, 16)` on exactly four hex digits yields their value. -/
theorem pyIntHex_clean {d1 d2 d3 d4 v1 v2 v3 v4 : ℕ}
    (h1 : hexDigitVal d1 = some v1) (h2 : hexDigitVal d2 = some v2)
    (h3 : hexDigitVal d3 = some v3) (h4 : hexDigitVal d4 = some v4) :
    pyIntHex [d1, d2, d3, d4] =
      some ((4096 * v1 + 256 * v2 + 16 * v3 + v4 : ℕ) : ℤ) := by
  have s1 := hex_not_special h1
  have s2 := hex_not_special h2
  have s4 := hex_not_special h4
  have e1 : List.dropWhile isPyWs [d1, d2, d3, d4] = [d1, d2, d3, d4] := by
    simp [List.dropWhile_cons, s1.1]
  have e2 : List.dropWhile isPyWs [d4, d3, d2, d1] = [d4, d3, d2, d1] := by
    simp [List.dropWhile_cons, s4.1]
  have hrest : hexRest v1 [d2, d3, d4] =
      some (16 * (16 * (16 * v1 + v2) + v3) + v4) := by
    rw [hexRest_cons _ _ h2, hexRest_cons _ _ h3, hexRest_cons _ _ h4]
    rfl
  have hnum : hexNum [d1, d2, d3, d4] =
      some (16 * (16 * (16 * v1 + v2) + v3) + v4) := by
    by_cases hd1 : d1 = 48
    · subst hd1
      have hv1 : v1 = 0 := by simpa [hexDigitVal] using h1.symm
      rw [hexNum.eq_def]
      dsimp only
      rw [if_pos rfl]
      rw [if_neg (by push_neg; exact ⟨s2.2.2.2.2.1, s2.2.2.2.2.2⟩)]
      rw [hexRest_cons _ _ h2, hexRest_cons _ _ h3, hexRest_cons _ _ h4]
      simp [hexRest, hv1]
    · rw [hexNum.eq_def]
      dsimp only
      rw [if_neg hd1, h1]
      exact hrest
  unfold pyIntHex
  rw [e1, show ([d1, d2, d3, d4] : List ℕ).reverse = [d4, d3, d2, d1] from rfl,
    e2, show ([d4, d3, d2, d1] : List ℕ).reverse = [d1, d2, d3, d4] from rfl]
  rw [hexSigned.eq_def]
  dsimp only
  rw [if_neg s1.2.2.1, if_neg s1.2.2.2.1, hnum]
  simp only [Option.map_some']
  congr 1
  simp only [Int.ofNat_eq_natCast]
  push_cast
  ring

/-- Python `chr(int(s, 16))` on exactly four hex digits yields the code
point `hexQuad`. -/
theorem pyChr_clean {d1 d2 d3 d4 v1 v2 v3 v4 : ℕ}
    (h1 : hexDigitVal d1 = some v1) (h2 : hexDigitVal d2 = some v2)
    (h3 : hexDigitVal d3 = some v3) (h4 : hexDigitVal d4 = some v4) :
    pyChr (pyIntHex [d1, d2, d3, d4]) = some (hexQuad d1 d2 d3 d4) := by
  rw [pyIntHex_clean h1 h2 h3 h4]
  simp only [pyChr]
  have b1 := hexDigitVal_lt_16 h1
  have b2 := hexDigitVal_lt_16 h2
  have b3 := hexDigitVal_lt_16 h3
  have b4 := hexDigitVal_lt_16 h4
  rw [if_pos ⟨Int.ofNat_nonneg _, by push_cast; omega⟩]
  simp [hexQuad, h1, h2, h3, h4]
  omega

/-- On a well-formed body followed by the closing quote, the extract loop
emits exactly the unescaped body, discards everything after the quote, and
ends in the `done` state. -/
theorem extractLoop_validBody :
    ∀ (body : List ℕ), validBody body = true → ∀ (post : List ℕ),
    extractLoop false (body ++ 34 :: post) = (refUnescape body, ⟨[], .done, false⟩) := by
  intro body
  induction body using validBody.induct with
  | case1 =>
    intro _ post
    rfl
  | case2 d1 d2 d3 d4 rest3 ih =>
    intro hv post
    simp only [validBody, Bool.and_eq_true] at hv
    obtain ⟨⟨⟨⟨hx1, hx2⟩, hx3⟩, hx4⟩, hrest⟩ := hv
    obtain ⟨v1, hv1⟩ := Option.isSome_iff_exists.mp hx1
    obtain ⟨v2, hv2⟩ := Option.isSome_iff_exists.mp hx2
    obtain ⟨v3, hv3⟩ := Option.isSome_iff_exists.mp hx3
    obtain ⟨v4, hv4⟩ := Option.isSome_iff_exists.mp hx4
    rw [show (92 :: 117 :: d1 :: d2 :: d3 :: d4 :: rest3) ++ 34 :: post =
        92 :: 117 :: d1 :: d2 :: d3 :: d4 :: (rest3 ++ 34 :: post) from rfl]
    rw [show extractLoop false
        (92 :: 117 :: d1 :: d2 :: d3 :: d4 :: (rest3 ++ 34 :: post)) =
        extractLoop true (117 :: d1 :: d2 :: d3 :: d4 :: (rest3 ++ 34 :: post)) from rfl]
    rw [show extractLoop true (117 :: d1 :: d2 :: d3 :: d4 :: (rest3 ++ 34 :: post)) =
        (hexQuad d1 d2 d3 d4 :: (extractLoop false (rest3 ++ 34 :: post)).1,
          (extractLoop false (rest3 ++ 34 :: post)).2) from by
      simp only [extractLoop]
      rw [pyChr_clean hv1 hv2 hv3 hv4]]
    rw [ih hrest post]
    rw [show refUnescape (92 :: 117 :: d1 :: d2 :: d3 :: d4 :: rest3) =
        hexQuad d1 d2 d3 d4 :: refUnescape rest3 from by simp [refUnescape]]
  | case3 tail hshort =>
    intro hv post
    rw [show validBody (92 :: 117 :: tail) = false from by
      simp [validBody, hshort]] at hv
    cases hv
  | case4 =>
    intro hv post
    exact absurd hv (by decide)
  | case5 e rest2 hsh hne ih =>
    intro hv post
    have hv' : validBody rest2 = true := by
      rw [show validBody (92 :: e :: rest2) = validBody rest2 from by
        simp [validBody, hne]] at hv
      exact hv
    rw [show (92 :: e :: rest2) ++ 34 :: post = 92 :: e :: (rest2 ++ 34 :: post) from rfl]
    rw [show extractLoop false (92 :: e :: (rest2 ++ 34 :: post)) =
        extractLoop true (e :: (rest2 ++ 34 :: post)) from rfl]
    have hcond : ∀ (d1 d2 d3 d4 : ℕ) (r : List ℕ),
        e = 117 → rest2 ++ 34 :: post = d1 :: d2 :: d3 :: d4 :: r → False :=
      fun _ _ _ _ _ he _ => hne he
    rw [show extractLoop true (e :: (rest2 ++ 34 :: post)) =
        (escMap e :: (extractLoop false (rest2 ++ 34 :: post)).1,
          (extractLoop false (rest2 ++ 34 :: post)).2) from by
      simp [extractLoop, hcond]]
    rw [ih hv' post]
    rw [show refUnescape (92 :: e :: rest2) = escMap e :: refUnescape rest2 from by
      simp [refUnescape, hne]]
  | case6 c rest h1 h2 h3 h4 ih =>
    intro hv post
    have hc92 : ¬ c = 92 := by
      intro hc
      rcases rest with _ | ⟨r, rs⟩
      · exact h3 hc rfl
      · exact h4 r rs hc rfl
    rw [show validBody (c :: rest) = ((c != 34) && validBody rest) from by
      simp [validBody, hc92]] at hv
    simp only [Bool.and_eq_true, bne_iff_ne, ne_eq] at hv
    obtain ⟨hc34, hrest⟩ := hv
    rw [show (c :: rest) ++ 34 :: post = c :: (rest ++ 34 :: post) from rfl]
    rw [show extractLoop false (c :: (rest ++ 34 :: post)) =
        (c :: (extractLoop false (rest ++ 34 :: post)).1,
          (extractLoop false (rest ++ 34 :: post)).2) from by
      simp [extractLoop, hc92, hc34]]
    rw [ih hrest post]
    rw [show refUnescape (c :: rest) = c :: refUnescape rest from by
      simp [refUnescape, hc92]]

/-- A prefix of `u ++ b` no longer than `u` is a prefix of `u`. -/
theorem prefix_of_prefix_append {p u b : List ℕ} (h : p <+: u ++ b)
    (hl : p.length ≤ u.length) : p <+: u := by
  rw [List.prefix_iff_eq_take] at h
  rw [List.take_append_eq_append_take] at h
  rw [show p.length - u.length = 0 from by omega] at h
  simp only [List.take_zero, List.append_nil] at h
  rw [h]
  exact List.take_prefix _ _

/-- Unfolding lemma for `findSub` on a cons cell. -/
theorem findSub_cons (pat : List ℕ) (c : ℕ) (rest : List ℕ) :
    findSub pat (c :: rest) =
      if pat.isPrefixOf (c :: rest) then some 0
      else (findSub pat rest).map (· + 1) := rfl

/-- `findSub` returns `none` exactly when the pattern occurs nowhere. -/
theorem findSub_none_iff (pat l : List ℕ) :
    findSub pat l = none ↔ ∀ k, ¬ (pat <+: l.drop k) := by
  induction l with
  | nil =>
    rcases pat with _ | ⟨p, ps⟩
    · simp [findSub]
    · simp only [findSub, List.isEmpty_cons, if_false]
      constructor
      · intro _ k
        simp
      · intro _
        rfl
  | cons c rest ih =>
    simp only [findSub]
    by_cases hp : pat.isPrefixOf (c :: rest)
    · rw [if_pos hp]
      constructor
      · intro h
        cases h
      · intro h
        exact absurd (List.isPrefixOf_iff_prefix.mp hp) (by simpa using h 0)
    · rw [if_neg hp]
      rw [Option.map_eq_none']
      rw [ih]
      constructor
      · intro h k
        cases k with
        | zero =>
          intro hpre
          exact hp (List.isPrefixOf_iff_prefix.mpr (by simpa using hpre))
        | succ k =>
          simpa using h k
      · intro h k
        simpa using h (k + 1)

/-- A successful `findSub` marks a genuine in-bounds occurrence. -/
theorem findSub_some_le {pat l : List ℕ} {i : ℕ} (h : findSub pat l = some i) :
    i + pat.length ≤ l.length ∧ pat <+: l.drop i := by
  induction l generalizing i with
  | nil =>
    rcases pat with _ | ⟨p, ps⟩
    · unfold findSub at h
      simp only [List.isEmpty_nil, if_true] at h
      cases h
      simp
    · unfold findSub at h
      simp at h
  | cons c rest ih =>
    unfold findSub at h
    split_ifs at h with hp
    · cases h
      refine ⟨?_, by simpa using List.isPrefixOf_iff_prefix.mp hp⟩
      have := (List.isPrefixOf_iff_prefix.mp hp).length_le
      simpa using this
    · rcases Option.map_eq_some'.mp h with ⟨j, hj, rfl⟩
      obtain ⟨hlen, hpre⟩ := ih hj
      constructor
      · simp only [List.length_cons]
        omega
      · simpa using hpre

/-- The first occurrence inside `l` stays the first occurrence after
appending more text. -/
theorem findSub_some_append {pat l : List ℕ} {i : ℕ}
    (h : findSub pat l = some i) (b : List ℕ) :
    findSub pat (l ++ b) = some i := by
  induction l generalizing i with
  | nil =>
    rcases pat with _ | ⟨p, ps⟩
    · unfold findSub at h
      simp only [List.isEmpty_nil, if_true] at h
      cases h
      cases b with
      | nil => rfl
      | cons x xs => simp [findSub]
    · unfold findSub at h
      simp at h
  | cons c rest ih =>
    unfold findSub at h
    split_ifs at h with hp
    · cases h
      rw [List.cons_append, findSub_cons]
      rw [if_pos (List.isPrefixOf_iff_prefix.mpr (by
        rw [← List.cons_append]
        exact (List.isPrefixOf_iff_prefix.mp hp).trans
          (List.prefix_append (c :: rest) b)))]
    · rcases Option.map_eq_some'.mp h with ⟨j, hj, rfl⟩
      have hlen := (findSub_some_le hj).1
      rw [List.cons_append, findSub_cons]
      rw [if_neg (fun hpre => hp (List.isPrefixOf_iff_prefix.mpr
        (prefix_of_prefix_append
          (by simpa [List.cons_append] using List.isPrefixOf_iff_prefix.mp hpre)
          (by simp only [List.length_cons]; omega))))]
      rw [ih hj]
      rfl

/-- When the pattern starts nowhere inside `u`, searching `u ++ w` is
searching `w` shifted by `u.length`. -/
theorem findSub_append_shift (pat u w : List ℕ)
    (h : ∀ k, k < u.length → ¬ (pat <+: (u ++ w).drop k)) :
    findSub pat (u ++ w) = (findSub pat w).map (· + u.length) := by
  induction u with
  | nil =>
    simp only [List.nil_append, List.length_nil]
    cases findSub pat w <;> simp
  | cons c u' ih =>
    rw [List.cons_append, findSub_cons]
    rw [if_neg (fun hp => h 0 (by simp)
      (by simpa using List.isPrefixOf_iff_prefix.mp hp))]
    rw [ih (fun k hk hpre => h (k + 1) (by simpa using Nat.succ_lt_succ hk)
      (by simpa using hpre))]
    cases hfw : findSub pat w with
    | none => simp
    | some j => simp [Nat.add_assoc]

/-- Dropping past an appended prefix. -/
theorem drop_append_length (u w : List ℕ) (n : ℕ) :
    (u ++ w).drop (u.length + n) = w.drop n := by
  induction u with
  | nil => simp
  | cons c u' ih =>
    rw [List.cons_append, List.length_cons,
      show u'.length + 1 + n = (u'.length + n) + 1 from by omega,
      List.drop_succ_cons]
    exact ih

/-- The retained tail is never longer than requested. -/
theorem takeLast_length_le (n : ℕ) (l : List ℕ) :
    (takeLast n l).length ≤ n ∧ (takeLast n l).length ≤ l.length := by
  unfold takeLast
  rw [List.length_drop]
  omega

/-- `takeLast` ignores a head that is out of reach. -/
theorem takeLast_cons_of_le (n c : ℕ) (u : List ℕ) (h : n ≤ u.length) :
    takeLast n (c :: u) = takeLast n u := by
  unfold takeLast
  rw [List.length_cons]
  rw [show u.length + 1 - n = (u.length - n) + 1 from by omega]
  rfl

/-- The last `n` elements of `u ++ v` only depend on the last `n`
elements of `u`. -/
theorem takeLast_append (n : ℕ) (u v : List ℕ) :
    takeLast n (u ++ v) = takeLast n (takeLast n u ++ v) := by
  induction u with
  | nil => simp [takeLast]
  | cons c u' ih =>
    by_cases h : u'.length + 1 ≤ n
    · rw [show takeLast n (c :: u') = c :: u' from by
        unfold takeLast
        rw [show (c :: u').length - n = 0 from by
          simp only [List.length_cons]; omega]
        rfl]
    · have hn : n ≤ u'.length := by omega
      rw [show (c :: u') ++ v = c :: (u' ++ v) from rfl]
      rw [takeLast_cons_of_le n c (u' ++ v) (by simp only [List.length_append]; omega)]
      rw [takeLast_cons_of_le n c u' hn]
      exact ih

/-- A trimmed buffer with no occurrence still has no occurrence. -/
theorem findSub_none_takeLast {pat l : List ℕ} (h : findSub pat l = none)
    (n : ℕ) : findSub pat (takeLast n l) = none := by
  rw [findSub_none_iff] at h ⊢
  intro k
  unfold takeLast
  rw [List.drop_drop]
  exact h _

/-- Unfolding lemma: the escaped-`u` arm with four buffered characters. -/
theorem extractLoop_true_u4 (d1 d2 d3 d4 : ℕ) (rest : List ℕ) :
    extractLoop true (117 :: d1 :: d2 :: d3 :: d4 :: rest) =
      (match pyChr (pyIntHex [d1, d2, d3, d4]) with
      | some v => (v :: (extractLoop false rest).1, (extractLoop false rest).2)
      | none => (92 :: 117 :: d1 :: d2 :: d3 :: d4 :: (extractLoop false rest).1,
          (extractLoop false rest).2)) := by
  rw [extractLoop]

/-- Unfolding lemma: any other escaped character (including a `u` with
fewer than four buffered characters after it) is emitted through
`escMap`. -/
theorem extractLoop_true_cons {c : ℕ} (rest : List ℕ) (hc : ¬ c = 117) :
    extractLoop true (c :: rest) =
      (escMap c :: (extractLoop false rest).1, (extractLoop false rest).2) := by
  have hcond : ∀ (d1 d2 d3 d4 : ℕ) (r : List ℕ),
      c = 117 → rest = d1 :: d2 :: d3 :: d4 :: r → False :=
    fun _ _ _ _ _ he _ => hc he
  simp [extractLoop, hcond]

/-- Unfolding lemma: an escaped `u` with a short buffer degrades to a
literal `u` (escMap is the identity on 117). -/
theorem extractLoop_true_u_short {rest : List ℕ}
    (hsh : ∀ (d1 d2 d3 d4 : ℕ) (r : List ℕ),
      rest = d1 :: d2 :: d3 :: d4 :: r → False) :
    extractLoop true (117 :: rest) =
      (escMap 117 :: (extractLoop false rest).1, (extractLoop false rest).2) := by
  have hcond : ∀ (d1 d2 d3 d4 : ℕ) (r : List ℕ),
      (117 : ℕ) = 117 → rest = d1 :: d2 :: d3 :: d4 :: r → False :=
    fun a b c d r _ hx => hsh a b c d r hx
  simp [extractLoop, hcond]

/-- Unfolding lemma: an unescaped ordinary character is copied through. -/
theorem extractLoop_false_cons {c : ℕ} (rest : List ℕ)
    (h92 : ¬ c = 92) (h34 : ¬ c = 34) :
    extractLoop false (c :: rest) =
      (c :: (extractLoop false rest).1, (extractLoop false rest).2) := by
  simp [extractLoop, h92, h34]

/-- `noTruncU` steps over a non-`u` escaped character. -/
theorem noTruncU_true_cons {c : ℕ} (rest : List ℕ) (hc : ¬ c = 117) :
    noTruncU true (c :: rest) = noTruncU false rest := by
  have h2 : ∀ (x1 x2 x3 x4 : ℕ) (r : List ℕ),
      c = 117 → rest = x1 :: x2 :: x3 :: x4 :: r → False :=
    fun _ _ _ _ _ he _ => hc he
  have h3 : ∀ (t : List ℕ), c = 117 → rest = t → False :=
    fun _ he _ => hc he
  simp [noTruncU, h2, h3]

/-- `noTruncU` rejects an escaped `u` with a short remaining buffer. -/
theorem noTruncU_true_u_short {rest : List ℕ}
    (hsh : ∀ (d1 d2 d3 d4 : ℕ) (r : List ℕ),
      rest = d1 :: d2 :: d3 :: d4 :: r → False) :
    noTruncU true (117 :: rest) = false := by
  have hcond : ∀ (x1 x2 x3 x4 : ℕ) (r : List ℕ),
      (117 : ℕ) = 117 → rest = x1 :: x2 :: x3 :: x4 :: r → False :=
    fun a b c d r _ hx => hsh a b c d r hx
  simp [noTruncU, hcond]

/-- `noTruncU` steps over a plain unescaped character. -/
theorem noTruncU_false_cons {c : ℕ} (rest : List ℕ)
    (h92 : ¬ c = 92) (h34 : ¬ c = 34) :
    noTruncU false (c :: rest) = noTruncU false rest := by
  simp [noTruncU, h92, h34]

/-- Chunk-fusion for the extract loop: when no `\u` escape is cut off at
the end of `a`, feeding `a ++ b` at once is feeding `a` and then `b`. -/
theorem extractLoop_append :
    ∀ (esc : Bool) (a : List ℕ), noTruncU esc a = true → ∀ (b : List ℕ),
    extractLoop esc (a ++ b) =
      ((extractLoop esc a).1 ++ (feed (extractLoop esc a).2 b).1,
        (feed (extractLoop esc a).2 b).2) := by
  intro esc a
  induction esc, a using extractLoop.induct with
  | case1 esc =>
    intro _ b
    simp [feed, extractLoop]
  | case2 d1 d2 d3 d4 rest4 v hpy ih =>
    intro h b
    have h' : noTruncU false rest4 = true := h
    rw [show (117 :: d1 :: d2 :: d3 :: d4 :: rest4) ++ b =
        117 :: d1 :: d2 :: d3 :: d4 :: (rest4 ++ b) from rfl]
    rw [extractLoop_true_u4, extractLoop_true_u4, hpy]
    rw [ih h' b]
    simp [feed]
  | case3 d1 d2 d3 d4 rest4 hpy ih =>
    intro h b
    have h' : noTruncU false rest4 = true := h
    rw [show (117 :: d1 :: d2 :: d3 :: d4 :: rest4) ++ b =
        117 :: d1 :: d2 :: d3 :: d4 :: (rest4 ++ b) from rfl]
    rw [extractLoop_true_u4, extractLoop_true_u4, hpy]
    rw [ih h' b]
    simp [feed]
  | case4 c rest hcond ih =>
    intro h b
    by_cases hc : c = 117
    · subst hc
      rw [noTruncU_true_u_short (fun a b c d r hx => hcond a b c d r rfl hx)] at h
      cases h
    · rw [noTruncU_true_cons rest hc] at h
      rw [show (c :: rest) ++ b = c :: (rest ++ b) from rfl]
      rw [extractLoop_true_cons (rest ++ b) hc, extractLoop_true_cons rest hc]
      rw [ih h b]
      simp [feed]
  | case5 rest ih =>
    intro h b
    have h' : noTruncU true rest = true := h
    rw [show (92 :: rest) ++ b = 92 :: (rest ++ b) from rfl]
    rw [show extractLoop false (92 :: (rest ++ b)) = extractLoop true (rest ++ b) from rfl]
    rw [show extractLoop false (92 :: rest) = extractLoop true rest from rfl]
    exact ih h' b
  | case6 rest hne =>
    intro _ b
    rw [show (34 :: rest) ++ b = 34 :: (rest ++ b) from rfl]
    rw [show extractLoop false (34 :: (rest ++ b)) =
        (([] : List ℕ), (⟨[], .done, false⟩ : Extractor)) from rfl]
    rw [show extractLoop false (34 :: rest) =
        (([] : List ℕ), (⟨[], .done, false⟩ : Extractor)) from rfl]
    simp [feed]
  | case7 c rest h92 h34 ih =>
    intro h b
    rw [noTruncU_false_cons rest h92 h34] at h
    rw [show (c :: rest) ++ b = c :: (rest ++ b) from rfl]
    rw [extractLoop_false_cons (rest ++ b) h92 h34, extractLoop_false_cons rest h92 h34]
    rw [ih h b]
    simp [feed]

/-- Dropping within the left part of an append. -/
theorem drop_append_le {r : List ℕ} (b : List ℕ) {k : ℕ} (h : k ≤ r.length) :
    (r ++ b).drop k = r.drop k ++ b := by
  rw [List.drop_append_eq_append_drop, show k - r.length = 0 from by omega,
    List.drop_zero]

/-- If the pattern occurs nowhere in `r` then it cannot start at a
position of `r ++ b` that fits entirely inside `r`. -/
theorem shift_exclusion {pat r : List ℕ} (hq : findSub pat r = none)
    (b : List ℕ) (k : ℕ) (hk : k + pat.length ≤ r.length) :
    ¬ (pat <+: (r ++ b).drop k) := by
  intro hpre
  rw [drop_append_le b (by omega)] at hpre
  exact (findSub_none_iff pat r).mp hq k
    (prefix_of_prefix_append hpre (by rw [List.length_drop]; omega))

/-- `takeLast` keeps a short list whole. -/
theorem takeLast_of_le {n : ℕ} {l : List ℕ} (h : l.length ≤ n) :
    takeLast n l = l := by
  unfold takeLast
  rw [show l.length - n = 0 from by omega]
  rfl

/-- Chunk-fusion for the quote-seeking stage. -/
theorem feedSkip_append (esc : Bool) (r b : List ℕ) (h : skipSafe esc r = true) :
    feedSkip esc (r ++ b) =
      ((feedSkip esc r).1 ++ (feed (feedSkip esc r).2 b).1,
        (feed (feedSkip esc r).2 b).2) := by
  unfold skipSafe at h
  cases hq : findSub [34] r with
  | none =>
    have hshift : findSub [34] (r ++ b) = (findSub [34] b).map (· + r.length) :=
      findSub_append_shift [34] r b (fun k hk =>
        shift_exclusion hq b k (by simp only [List.length_cons, List.length_nil]; omega))
    have htl : findSub [34] (takeLast 4 r) = none := findSub_none_takeLast hq 4
    have hshift2 : findSub [34] (takeLast 4 r ++ b) =
        (findSub [34] b).map (· + (takeLast 4 r).length) :=
      findSub_append_shift [34] _ b (fun k hk =>
        shift_exclusion htl b k (by simp only [List.length_cons, List.length_nil]; omega))
    rw [show feedSkip esc r = ([], ⟨takeLast 4 r, .skipToQuote, esc⟩) from by
      unfold feedSkip
      rw [hq]]
    rw [show feed ⟨takeLast 4 r, .skipToQuote, esc⟩ b =
      feedSkip esc (takeLast 4 r ++ b) from rfl]
    unfold feedSkip
    rw [hshift, hshift2]
    cases hb : findSub [34] b with
    | none =>
      simp only [Option.map_none']
      rw [takeLast_append]
      simp
    | some q =>
      simp only [Option.map_some']
      rw [show q + r.length + 1 = r.length + (q + 1) from by omega,
        drop_append_length]
      rw [show q + (takeLast 4 r).length + 1 = (takeLast 4 r).length + (q + 1) from by omega,
        drop_append_length]
      simp
  | some q =>
    rw [hq] at h
    have hlen := (findSub_some_le hq).1
    simp only [List.length_cons, List.length_nil] at hlen
    rw [show feedSkip esc (r ++ b) = extractLoop esc ((r ++ b).drop (q + 1)) from by
      unfold feedSkip
      rw [findSub_some_append hq b]]
    rw [drop_append_le b (by omega)]
    rw [show feedSkip esc r = extractLoop esc (r.drop (q + 1)) from by
      unfold feedSkip
      rw [hq]]
    exact extractLoop_append esc (r.drop (q + 1)) h b

/-- Chunk-fusion for the marker-seeking stage. -/
theorem feedSeek_append (esc : Bool) (r b : List ℕ) (h : seekSafe esc r = true) :
    feedSeek esc (r ++ b) =
      ((feedSeek esc r).1 ++ (feed (feedSeek esc r).2 b).1,
        (feed (feedSeek esc r).2 b).2) := by
  have hm : markerL.length = 16 := rfl
  unfold seekSafe at h
  cases hq : findSub markerL r with
  | none =>
    by_cases hsmall : r.length ≤ markerL.length - 1
    · rw [show feedSeek esc r = ([], ⟨takeLast (markerL.length - 1) r, .seek, esc⟩) from by
        unfold feedSeek
        rw [hq]]
      rw [takeLast_of_le hsmall]
      rw [show feed ⟨r, .seek, esc⟩ b = feedSeek esc (r ++ b) from rfl]
      simp
    · push_neg at hsmall
      have hsplit : r = r.take (r.length - (markerL.length - 1)) ++
          r.drop (r.length - (markerL.length - 1)) := (List.take_append_drop _ r).symm
      have hulen : (r.take (r.length - (markerL.length - 1))).length =
          r.length - (markerL.length - 1) := by
        rw [List.length_take]
        omega
      have hstl : takeLast (markerL.length - 1) r =
          r.drop (r.length - (markerL.length - 1)) := rfl
      have hshift : findSub markerL (r ++ b) =
          (findSub markerL (r.drop (r.length - (markerL.length - 1)) ++ b)).map
            (· + (r.take (r.length - (markerL.length - 1))).length) := by
        conv_lhs => rw [hsplit, List.append_assoc]
        refine findSub_append_shift markerL _ _ (fun k hk hpre => ?_)
        rw [hulen] at hk
        refine shift_exclusion hq b k (by rw [hm] at *; omega) ?_
        rw [show r ++ b = r.take (r.length - (markerL.length - 1)) ++
            (r.drop (r.length - (markerL.length - 1)) ++ b) from by
          rw [← List.append_assoc, ← hsplit]]
        exact hpre
      rw [show feedSeek esc r = ([], ⟨takeLast (markerL.length - 1) r, .seek, esc⟩) from by
        unfold feedSeek
        rw [hq]]
      rw [hstl]
      rw [show feed ⟨r.drop (r.length - (markerL.length - 1)), .seek, esc⟩ b =
        feedSeek esc (r.drop (r.length - (markerL.length - 1)) ++ b) from rfl]
      unfold feedSeek
      rw [hshift]
      cases hx : findSub markerL (r.drop (r.length - (markerL.length - 1)) ++ b) with
      | none =>
        simp only [Option.map_none']
        rw [show takeLast (markerL.length - 1) (r ++ b) =
            takeLast (markerL.length - 1)
              (r.drop (r.length - (markerL.length - 1)) ++ b) from by
          rw [takeLast_append, hstl]]
        simp
      | some j =>
        simp only [Option.map_some']
        rw [show j + (r.take (r.length - (markerL.length - 1))).length + markerL.length =
            (r.take (r.length - (markerL.length - 1))).length + (j + markerL.length)
          from by omega]
        rw [show r ++ b = r.take (r.length - (markerL.length - 1)) ++
            (r.drop (r.length - (markerL.length - 1)) ++ b) from by
          rw [← List.append_assoc, ← hsplit]]
        rw [drop_append_length]
        simp
  | some i =>
    rw [hq] at h
    have hlen := (findSub_some_le hq).1
    rw [show feedSeek esc (r ++ b) =
        feedSkip esc ((r ++ b).drop (i + markerL.length)) from by
      unfold feedSeek
      rw [findSub_some_append hq b]]
    rw [drop_append_le b (by omega)]
    rw [show feedSeek esc r = feedSkip esc (r.drop (i + markerL.length)) from by
      unfold feedSeek
      rw [hq]]
    exact feedSkip_append esc (r.drop (i + markerL.length)) b h

/-- Chunk-fusion for a whole feed call. -/
theorem feed_append (e : Extractor) (a b : List ℕ) (h : feedSafe e a = true) :
    feed e (a ++ b) =
      ((feed e a).1 ++ (feed (feed e a).2 b).1, (feed (feed e a).2 b).2) := by
  rcases e with ⟨buf, st, esc⟩
  cases st with
  | done => simp [feed]
  | seek =>
    have h' : seekSafe esc (buf ++ a) = true := h
    rw [show feed ⟨buf, .seek, esc⟩ (a ++ b) = feedSeek esc (buf ++ (a ++ b)) from rfl,
      show buf ++ (a ++ b) = (buf ++ a) ++ b from (List.append_assoc buf a b).symm,
      show feed ⟨buf, .seek, esc⟩ a = feedSeek esc (buf ++ a) from rfl]
    exact feedSeek_append esc (buf ++ a) b h'
  | skipToQuote =>
    have h' : skipSafe esc (buf ++ a) = true := h
    rw [show feed ⟨buf, .skipToQuote, esc⟩ (a ++ b) = feedSkip esc (buf ++ (a ++ b)) from rfl,
      show buf ++ (a ++ b) = (buf ++ a) ++ b from (List.append_assoc buf a b).symm,
      show feed ⟨buf, .skipToQuote, esc⟩ a = feedSkip esc (buf ++ a) from rfl]
    exact feedSkip_append esc (buf ++ a) b h'
  | extract =>
    have h' : noTruncU esc (buf ++ a) = true := h
    rw [show feed ⟨buf, .extract, esc⟩ (a ++ b) = extractLoop esc (buf ++ (a ++ b)) from rfl,
      show buf ++ (a ++ b) = (buf ++ a) ++ b from (List.append_assoc buf a b).symm,
      show feed ⟨buf, .extract, esc⟩ a = extractLoop esc (buf ++ a) from rfl]
    exact extractLoop_append esc (buf ++ a) h' b

/-- Feeding a safe chunk sequence one call at a time produces the same
output and final state as feeding the concatenation at once. -/
theorem feedAll_join :
    ∀ (cs : List (List ℕ)) (e : Extractor), cs ≠ [] → allSafe e cs = true →
    feed e cs.join = feedAll e cs := by
  intro cs
  induction cs with
  | nil =>
    intro e hne _
    exact absurd rfl hne
  | cons c cs ih =>
    intro e _ hsafe
    simp only [allSafe, Bool.and_eq_true] at hsafe
    obtain ⟨h1, h2⟩ := hsafe
    cases cs with
    | nil =>
      rw [show (c :: ([] : List (List ℕ))).join = c ++ [] from rfl, List.append_nil]
      rw [show feedAll e [c] = ((feed e c).1 ++ [], (feed e c).2) from rfl]
      simp
    | cons c2 cs2 =>
      rw [show (c :: c2 :: cs2).join = c ++ (c2 :: cs2).join from rfl]
      rw [feed_append e c ((c2 :: cs2).join) h1]
      rw [ih (feed e c).2 (by simp) h2]
      rfl

/-- The first unescaped quote after a quote-free stretch is found exactly
at the end of that stretch. -/
theorem findSub_quote_mid :
    ∀ (mid : List ℕ), (∀ c ∈ mid, c ≠ 34) → ∀ (z : List ℕ),
    findSub [34] (mid ++ 34 :: z) = some mid.length := by
  intro mid
  induction mid with
  | nil =>
    intro _ z
    rw [List.nil_append, findSub_cons]
    simp [List.isPrefixOf]
  | cons c mid' ih =>
    intro hm z
    have hc : c ≠ 34 := hm c (List.mem_cons_self c mid')
    have hpre : ([34] : List ℕ).isPrefixOf (c :: (mid' ++ 34 :: z)) = false := by
      simp [List.isPrefixOf]
      omega
    rw [List.cons_append, findSub_cons, hpre]
    simp only [Bool.false_eq_true, if_false]
    rw [ih (fun x hx => hm x (List.mem_cons_of_mem c hx)) z]
    simp [List.length_cons]

/-- Feeding the whole stream in one call extracts exactly the unescaped
body of the target field: the text before the first marker occurrence and
the quote-free stretch between marker and opening quote are skipped, the
well-formed body is unescaped, and everything after the closing quote is
discarded. -/
theorem feed_oneshot (pre mid body post : List ℕ)
    (hfind : findSub markerL
      (pre ++ (markerL ++ (mid ++ 34 :: (body ++ 34 :: post)))) = some pre.length)
    (hmid : ∀ c ∈ mid, c ≠ 34)
    (hbody : validBody body = true) :
    feed initExtractor (pre ++ (markerL ++ (mid ++ 34 :: (body ++ 34 :: post)))) =
      (refUnescape body, ⟨[], .done, false⟩) := by
  rw [show feed initExtractor (pre ++ (markerL ++ (mid ++ 34 :: (body ++ 34 :: post)))) =
      feedSeek false ([] ++ (pre ++ (markerL ++ (mid ++ 34 :: (body ++ 34 :: post)))))
    from rfl]
  rw [List.nil_append]
  rw [show feedSeek false (pre ++ (markerL ++ (mid ++ 34 :: (body ++ 34 :: post)))) =
      feedSkip false ((pre ++ (markerL ++ (mid ++ 34 :: (body ++ 34 :: post)))).drop
        (pre.length + markerL.length)) from by
    unfold feedSeek
    rw [hfind]]
  rw [show (pre ++ (markerL ++ (mid ++ 34 :: (body ++ 34 :: post)))).drop
      (pre.length + markerL.length) = mid ++ 34 :: (body ++ 34 :: post) from by
    rw [show pre ++ (markerL ++ (mid ++ 34 :: (body ++ 34 :: post))) =
        (pre ++ markerL) ++ (mid ++ 34 :: (body ++ 34 :: post)) from
      (List.append_assoc _ _ _).symm]
    rw [show pre.length + markerL.length = (pre ++ markerL).length + 0 from by
      rw [List.length_append]
      rfl]
    rw [drop_append_length, List.drop_zero]]
  rw [show feedSkip false (mid ++ 34 :: (body ++ 34 :: post)) =
      extractLoop false ((mid ++ 34 :: (body ++ 34 :: post)).drop (mid.length + 1)) from by
    unfold feedSkip
    rw [findSub_quote_mid mid hmid (body ++ 34 :: post)]]
  rw [show (mid ++ 34 :: (body ++ 34 :: post)).drop (mid.length + 1) =
      body ++ 34 :: post from by
    rw [show mid ++ 34 :: (body ++ 34 :: post) =
        (mid ++ [34]) ++ (body ++ 34 :: post) from by
      rw [List.append_assoc]
      rfl]
    rw [show mid.length + 1 = (mid ++ [34]).length + 0 from by
      rw [List.length_append]
      rfl]
    rw [drop_append_length, List.drop_zero]]
  exact extractLoop_validBody body hbody post

/-- **C7** (counterexample): splitting the four hex digits of a `\uXXXX`
escape across two feed calls breaks escape decoding.  The text
`{"html_prototype": "\u0041"}` fed in one call yields the decoded `A`
(code 65), which is also the reference unescaping of the body `\u0041`;
but fed as the two chunks `{"html_prototype": "\u00` and `41"}` the
extractor emits the five literal characters `u0041`.  This refutes the
claim that escapes whose bytes are split across call boundaries are
decoded, for every partition of the text. -/
theorem C7_split_escape_counterexample :
    (codes "\x7b\"html_prototype\": \"\\u00" ++ codes "41\"\x7d" =
      codes "\x7b\"html_prototype\": \"\\u0041\"\x7d") ∧
    (feed initExtractor (codes "\x7b\"html_prototype\": \"\\u0041\"\x7d")).1 = [65] ∧
    refUnescape (codes "\\u0041") = [65] ∧
    (feedAll initExtractor
      [codes "\x7b\"html_prototype\": \"\\u00", codes "41\"\x7d"]).1 =
      [117, 48, 48, 52, 49] := by
  refine ⟨?_, ?_, ?_, ?_⟩ <;> decide

/-- **C7** (amended): for every stream whose concatenation contains the
target field (first marker occurrence at `pre.length`, a quote-free
stretch `mid` before the opening quote, a well-formed escaped `body`) and
every partition of it into feed-call chunks in which no chunk boundary
cuts a `\uXXXX` escape off from its four hex digits, the concatenated sink
output is exactly the unescaped body; moreover while still seeking the
marker the extractor retains an unmatched tail no longer than the marker's
length minus one, so a marker spanning two feed calls is still found. -/
theorem C7_streaming_extractor_amended :
    (∀ (pre mid body post : List ℕ) (chunks : List (List ℕ)),
      chunks ≠ [] →
      chunks.join = pre ++ (markerL ++ (mid ++ 34 :: (body ++ 34 :: post))) →
      findSub markerL chunks.join = some pre.length →
      (∀ c ∈ mid, c ≠ 34) →
      validBody body = true →
      allSafe initExtractor chunks = true →
      (feedAll initExtractor chunks).1 = refUnescape body) ∧
    (∀ (esc : Bool) (b : List ℕ), findSub markerL b = none →
      (feedSeek esc b).2.buf.length ≤ markerL.length - 1) := by
  constructor
  · intro pre mid body post chunks hne hjoin hfind hmid hbody hsafe
    have h := feedAll_join chunks initExtractor hne hsafe
    rw [hjoin] at hfind
    rw [← h, hjoin, feed_oneshot pre mid body post hfind hmid hbody]
  · intro esc b h
    have hb : (feedSeek esc b).2.buf = takeLast (markerL.length - 1) b := by
      unfold feedSeek
      rw [h]
    rw [hb]
    exact (takeLast_length_le _ _).1

/-- Witness for the amended C7: the specification's own marker-split
example — feeding `{"htm` and then `l_prototype": "a\nb"}` — extracts
`a`, newline, `b`. -/
theorem C7_streaming_extractor_amended_witness :
    (feedAll initExtractor [codes "\x7b\"htm", codes "l_prototype\": \"a\\nb\"\x7d"]).1 =
      [97, 10, 98] := by
  have h := C7_streaming_extractor_amended.1 [123] [58, 32] [97, 92, 110, 98] [125]
    [codes "\x7b\"htm", codes "l_prototype\": \"a\\nb\"\x7d"]
    (by decide) (by decide) (by decide) (by decide) (by decide) (by decide)
  rw [h]
  decide

/-- The extract loop emits at most one character per consumed character,
counting a pending escape's backslash through the potential. -/
theorem extractLoop_pot :
    ∀ (esc : Bool) (l : List ℕ),
    (extractLoop esc l).1.length + pot (extractLoop esc l).2 ≤ esc.toNat + l.length := by
  intro esc l
  induction esc, l using extractLoop.induct with
  | case1 esc =>
    cases esc <;> simp [extractLoop, pot]
  | case2 d1 d2 d3 d4 rest4 v hpy ih =>
    rw [extractLoop_true_u4, hpy]
    simp only [pot, List.length_cons, Bool.toNat_false, Bool.toNat_true] at ih ⊢
    omega
  | case3 d1 d2 d3 d4 rest4 hpy ih =>
    rw [extractLoop_true_u4, hpy]
    simp only [pot, List.length_cons, Bool.toNat_false, Bool.toNat_true] at ih ⊢
    omega
  | case4 c rest hcond ih =>
    by_cases hc : c = 117
    · subst hc
      rw [extractLoop_true_u_short (fun a b c d r hx => hcond a b c d r rfl hx)]
      simp only [pot, List.length_cons, Bool.toNat_false, Bool.toNat_true] at ih ⊢
      omega
    · rw [extractLoop_true_cons rest hc]
      simp only [pot, List.length_cons, Bool.toNat_false, Bool.toNat_true] at ih ⊢
      omega
  | case5 rest ih =>
    rw [show extractLoop false (92 :: rest) = extractLoop true rest from rfl]
    simp only [pot, List.length_cons, Bool.toNat_false, Bool.toNat_true] at ih ⊢
    omega
  | case6 rest hne =>
    rw [show extractLoop false (34 :: rest) =
        (([] : List ℕ), (⟨[], .done, false⟩ : Extractor)) from rfl]
    simp [pot]
  | case7 c rest h92 h34 ih =>
    rw [extractLoop_false_cons rest h92 h34]
    simp only [pot, List.length_cons, Bool.toNat_false, Bool.toNat_true] at ih ⊢
    omega

/-- Output-plus-buffer bound for the quote-seeking stage. -/
theorem feedSkip_pot (esc : Bool) (b : List ℕ) :
    (feedSkip esc b).1.length + pot (feedSkip esc b).2 ≤ esc.toNat + b.length := by
  cases hq : findSub [34] b with
  | none =>
    rw [show feedSkip esc b = ([], ⟨takeLast 4 b, .skipToQuote, esc⟩) from by
      unfold feedSkip
      rw [hq]]
    have ht := (takeLast_length_le 4 b).2
    simp only [pot, List.length_nil]
    omega
  | some q =>
    rw [show feedSkip esc b = extractLoop esc (b.drop (q + 1)) from by
      unfold feedSkip
      rw [hq]]
    have h := extractLoop_pot esc (b.drop (q + 1))
    have hd : (b.drop (q + 1)).length ≤ b.length := by
      rw [List.length_drop]
      omega
    omega

/-- Output-plus-buffer bound for the marker-seeking stage. -/
theorem feedSeek_pot (esc : Bool) (b : List ℕ) :
    (feedSeek esc b).1.length + pot (feedSeek esc b).2 ≤ esc.toNat + b.length := by
  cases hq : findSub markerL b with
  | none =>
    rw [show feedSeek esc b = ([], ⟨takeLast (markerL.length - 1) b, .seek, esc⟩) from by
      unfold feedSeek
      rw [hq]]
    have ht := (takeLast_length_le (markerL.length - 1) b).2
    simp only [pot, List.length_nil]
    omega
  | some i =>
    rw [show feedSeek esc b = feedSkip esc (b.drop (i + markerL.length)) from by
      unfold feedSeek
      rw [hq]]
    have h := feedSkip_pot esc (b.drop (i + markerL.length))
    have hd : (b.drop (i + markerL.length)).length ≤ b.length := by
      rw [List.length_drop]
      omega
    omega

/-- A feed call emits at most one sink character per character it holds
(buffered plus newly fed), with the pending-escape backslash accounted by
the potential. -/
theorem feed_pot (e : Extractor) (raw : List ℕ) :
    (feed e raw).1.length + pot (feed e raw).2 ≤ pot e + raw.length := by
  rcases e with ⟨buf, st, esc⟩
  cases st with
  | done =>
    rw [show feed ⟨buf, .done, esc⟩ raw = ([], ⟨buf, .done, esc⟩) from rfl]
    simp only [pot, List.length_nil]
    omega
  | seek =>
    rw [show feed ⟨buf, .seek, esc⟩ raw = feedSeek esc (buf ++ raw) from rfl]
    have h := feedSeek_pot esc (buf ++ raw)
    simp only [pot, List.length_append] at h ⊢
    omega
  | skipToQuote =>
    rw [show feed ⟨buf, .skipToQuote, esc⟩ raw = feedSkip esc (buf ++ raw) from rfl]
    have h := feedSkip_pot esc (buf ++ raw)
    simp only [pot, List.length_append] at h ⊢
    omega
  | extract =>
    rw [show feed ⟨buf, .extract, esc⟩ raw = extractLoop esc (buf ++ raw) from rfl]
    have h := extractLoop_pot esc (buf ++ raw)
    simp only [pot, List.length_append] at h ⊢
    omega

/-- The total sink output of a chunk sequence is bounded by the characters
fed plus the starting potential. -/
theorem feedAll_pot :
    ∀ (cs : List (List ℕ)) (e : Extractor),
    (feedAll e cs).1.length + pot (feedAll e cs).2 ≤
      pot e + (cs.map List.length).sum := by
  intro cs
  induction cs with
  | nil =>
    intro e
    simp [feedAll]
  | cons c cs ih =>
    intro e
    rw [show feedAll e (c :: cs) =
        ((feed e c).1 ++ (feedAll (feed e c).2 cs).1, (feedAll (feed e c).2 cs).2)
      from rfl]
    have h1 := feed_pot e c
    have h2 := ih (feed e c).2
    simp only [List.length_append, List.map_cons, List.sum_cons]
    omega

/-- **C8**: the streaming extractor never crashes on malformed input: an
invalid `\uXXXX` hex escape (one whose four digits do not parse as hex)
degrades to emitting the literal escape sequence unchanged; for every
sequence of feed calls the total sink output never exceeds the number of
characters fed, so an unterminated string produces no final flush past the
last fed character; reaching the unescaped closing quote puts the machine
in the `done` state with an empty buffer; and in the `done` state every
further feed call is a no-op producing no output and changing nothing. -/
theorem C8_extractor_safety :
    (∀ (d1 d2 d3 d4 : ℕ) (rest : List ℕ),
      pyChr (pyIntHex [d1, d2, d3, d4]) = none →
      extractLoop true (117 :: d1 :: d2 :: d3 :: d4 :: rest) =
        (92 :: 117 :: d1 :: d2 :: d3 :: d4 :: (extractLoop false rest).1,
          (extractLoop false rest).2)) ∧
    (∀ (chunks : List (List ℕ)),
      (feedAll initExtractor chunks).1.length ≤ chunks.join.length) ∧
    (∀ (rest : List ℕ),
      extractLoop false (34 :: rest) = ([], ⟨[], .done, false⟩)) ∧
    (∀ (buf : List ℕ) (esc : Bool) (raw : List ℕ),
      feed ⟨buf, .done, esc⟩ raw = ([], ⟨buf, .done, esc⟩)) := by
  refine ⟨?_, ?_, fun _ => rfl, fun _ _ _ => rfl⟩
  · intro d1 d2 d3 d4 rest hpy
    rw [extractLoop_true_u4, hpy]
  · intro chunks
    have h := feedAll_pot chunks initExtractor
    have hj : chunks.join.length = (chunks.map List.length).sum :=
      List.length_join chunks
    have hp : pot initExtractor = 0 := rfl
    omega

/-- Witness for C8 at the concrete invalid hex escape `\uzzzz`. -/
theorem C8_extractor_safety_witness :
    extractLoop true (117 :: 122 :: 122 :: 122 :: 122 :: [34]) =
      (92 :: 117 :: 122 :: 122 :: 122 :: 122 :: (extractLoop false [34]).1,
        (extractLoop false [34]).2) :=
  C8_extractor_safety.1 122 122 122 122 [34] (by decide)

end DesignTeam
